import Mathlib

set_option exponentiation.threshold 2000

/-!
Verification of the OKLCH color utilities in
`src/features/Preferences/data/themeColors.ts`.

A JavaScript number is modelled by `JSVal`: `NaN`, one of the two
infinities, or a finite value kept as an exact rational (the idealized
semantics of the module; IEEE-754 rounding of finite results is outside
the model).  The overflow of `parseFloat` is modelled: a literal whose
value reaches the binary64 rounding boundary `2 ^ 1024 - 2 ^ 970`
(about `1.798e308`) converts to positive `Infinity`.  The arithmetic,
`Math.max`/`Math.min` and comparison operations treat `NaN` and the
infinities exactly as JavaScript does (`Infinity - Infinity` and
`0 * Infinity` are `NaN`, comparisons against `NaN` are false, and so
on).  Decimal rendering (`Number.prototype.toFixed` and
number-to-string conversion) is modelled by exact decimal expansion;
rationals without a terminating decimal expansion (which do not arise
from binary floating point inputs) are truncated at 20 fractional
digits.
-/

/-- A JavaScript number: `NaN`, positive or negative `Infinity`, or a
finite value modelled as an exact rational. -/
inductive JSVal where
  | nan : JSVal
  | posInf : JSVal
  | negInf : JSVal
  | num : ℚ → JSVal
deriving DecidableEq, Repr

/-- Abbreviation used throughout for JavaScript numbers. -/
abbrev JSNum := JSVal

/-- Embeds a rational as a finite JavaScript number. -/
def jq (q : ℚ) : JSNum := JSVal.num q

/-- Addition with IEEE-754 special values: `NaN` propagates, and
opposite infinities cancel to `NaN`. -/
def jsAdd : JSNum → JSNum → JSNum
  | JSVal.nan, _ => JSVal.nan
  | _, JSVal.nan => JSVal.nan
  | JSVal.posInf, JSVal.negInf => JSVal.nan
  | JSVal.negInf, JSVal.posInf => JSVal.nan
  | JSVal.posInf, _ => JSVal.posInf
  | _, JSVal.posInf => JSVal.posInf
  | JSVal.negInf, _ => JSVal.negInf
  | _, JSVal.negInf => JSVal.negInf
  | JSVal.num a, JSVal.num b => JSVal.num (a + b)

/-- Subtraction with IEEE-754 special values: `NaN` propagates, and
`Infinity - Infinity` (same sign) is `NaN`. -/
def jsSub : JSNum → JSNum → JSNum
  | JSVal.nan, _ => JSVal.nan
  | _, JSVal.nan => JSVal.nan
  | JSVal.posInf, JSVal.posInf => JSVal.nan
  | JSVal.negInf, JSVal.negInf => JSVal.nan
  | JSVal.posInf, _ => JSVal.posInf
  | JSVal.negInf, _ => JSVal.negInf
  | _, JSVal.posInf => JSVal.negInf
  | _, JSVal.negInf => JSVal.posInf
  | JSVal.num a, JSVal.num b => JSVal.num (a - b)

/-- Multiplication with IEEE-754 special values: `NaN` propagates,
`0 * Infinity` is `NaN`, and a nonzero finite factor gives a signed
infinity. -/
def jsMul : JSNum → JSNum → JSNum
  | JSVal.nan, _ => JSVal.nan
  | _, JSVal.nan => JSVal.nan
  | JSVal.posInf, JSVal.posInf => JSVal.posInf
  | JSVal.posInf, JSVal.negInf => JSVal.negInf
  | JSVal.negInf, JSVal.posInf => JSVal.negInf
  | JSVal.negInf, JSVal.negInf => JSVal.posInf
  | JSVal.posInf, JSVal.num b =>
    if b = 0 then JSVal.nan else if 0 < b then JSVal.posInf else JSVal.negInf
  | JSVal.num a, JSVal.posInf =>
    if a = 0 then JSVal.nan else if 0 < a then JSVal.posInf else JSVal.negInf
  | JSVal.negInf, JSVal.num b =>
    if b = 0 then JSVal.nan else if 0 < b then JSVal.negInf else JSVal.posInf
  | JSVal.num a, JSVal.negInf =>
    if a = 0 then JSVal.nan else if 0 < a then JSVal.negInf else JSVal.posInf
  | JSVal.num a, JSVal.num b => JSVal.num (a * b)

/-- `Math.max`: `NaN` if either argument is `NaN`, with the infinities
at the ends of the order. -/
def jsMax : JSNum → JSNum → JSNum
  | JSVal.nan, _ => JSVal.nan
  | _, JSVal.nan => JSVal.nan
  | JSVal.posInf, _ => JSVal.posInf
  | _, JSVal.posInf => JSVal.posInf
  | JSVal.negInf, x => x
  | x, JSVal.negInf => x
  | JSVal.num a, JSVal.num b => JSVal.num (max a b)

/-- `Math.min`: `NaN` if either argument is `NaN`, with the infinities
at the ends of the order. -/
def jsMin : JSNum → JSNum → JSNum
  | JSVal.nan, _ => JSVal.nan
  | _, JSVal.nan => JSVal.nan
  | JSVal.negInf, _ => JSVal.negInf
  | _, JSVal.negInf => JSVal.negInf
  | JSVal.posInf, x => x
  | x, JSVal.posInf => x
  | JSVal.num a, JSVal.num b => JSVal.num (min a b)

/-- The test `x > 1`; every comparison against `NaN` is false, and
`Infinity > 1` holds. -/
def jsGtOne : JSNum → Bool
  | JSVal.nan => false
  | JSVal.posInf => true
  | JSVal.negInf => false
  | JSVal.num a => decide (1 < a)

/-- The comparison `a <= b` as JavaScript evaluates it: false whenever
either side is `NaN`, with the infinities at the ends of the order. -/
def jsLe : JSNum → JSNum → Bool
  | JSVal.nan, _ => false
  | _, JSVal.nan => false
  | JSVal.negInf, _ => true
  | _, JSVal.posInf => true
  | JSVal.posInf, _ => false
  | _, JSVal.negInf => false
  | JSVal.num a, JSVal.num b => decide (a ≤ b)

/-- Division by the literal `100`: `NaN` and the infinities pass
through, a finite value is divided exactly. -/
def jsDiv100 : JSNum → JSNum
  | JSVal.num a => JSVal.num (a / 100)
  | x => x

/-- The overflow boundary of binary64: a decimal value of magnitude at
least `2 ^ 1024 - 2 ^ 970` converts to the correspondingly signed
`Infinity` under round-to-nearest. -/
def overflowBound : ℚ := 2 ^ 1024 - 2 ^ 970

/-- Converts an exact decimal value to a JavaScript number: magnitudes
at or beyond the binary64 boundary overflow to the signed `Infinity`
(as `parseFloat` does), smaller values are kept exact. -/
def jsOfRat (q : ℚ) : JSVal :=
  if overflowBound ≤ q then JSVal.posInf
  else if q ≤ -overflowBound then JSVal.negInf
  else JSVal.num q

/-- The components of a parsed OKLCH color, as returned by `parseOklch`
(source lines 23-28): `L` (0-1 after normalization), `C`, `H`, `A`. -/
structure Oklch where
  L : JSNum
  C : JSNum
  H : JSNum
  A : JSNum
deriving DecidableEq, Repr

/-! ### Character classes of the regular expression -/

/-- The character class `[\d.]` of the pattern: a decimal digit or a dot. -/
def numChar (c : Char) : Bool := c.isDigit || c == '.'

/-- The character class `\s` (whitespace), restricted to the ASCII
whitespace characters; the formatter only ever emits `' '`. -/
def wsChar (c : Char) : Bool :=
  c == ' ' || c == '\t' || c == '\n' || c == '\r' || c.toNat == 11 || c.toNat == 12

/-- Longest prefix of decimal digits, together with the rest. -/
def takeDigits : List Char → List Char × List Char
  | [] => ([], [])
  | c :: cs =>
    if c.isDigit then
      let p := takeDigits cs
      (c :: p.1, p.2)
    else ([], c :: cs)

/-- Longest prefix of `[\d.]` characters, together with the rest
(the greedy matching of `[\d.]+`). -/
def takeNum : List Char → List Char × List Char
  | [] => ([], [])
  | c :: cs =>
    if numChar c then
      let p := takeNum cs
      (c :: p.1, p.2)
    else ([], c :: cs)

/-- Greedy `\s*`: drops all leading whitespace. -/
def dropWs : List Char → List Char
  | [] => []
  | c :: cs => if wsChar c then dropWs cs else c :: cs

/-- Matches a literal character sequence at the front of the input. -/
def stripLit : List Char → List Char → Option (List Char)
  | [], cs => some cs
  | _ :: _, [] => none
  | l :: ls, c :: cs => if c = l then stripLit ls cs else none

/-- `([\d.]+)`: a non-empty greedy run of digits and dots. -/
def takeNum1 (cs : List Char) : Option (List Char × List Char) :=
  let p := takeNum cs
  if p.1.isEmpty then none else some p

/-- `%?`: optionally consumes a percent sign. -/
def stripPct : List Char → List Char
  | '%' :: cs => cs
  | cs => cs

/-- `\s+`: at least one whitespace character, consumed greedily. -/
def ws1 : List Char → Option (List Char)
  | [] => none
  | c :: cs => if wsChar c then some (dropWs cs) else none

/-- `(?:\/\s*([\d.]+))?`: the optional alpha group.  If a `/` is
present, a number must follow (a bare `/` makes the whole match fail,
exactly as backtracking does for the source pattern). -/
def alphaPart : List Char → Option (Option (List Char) × List Char)
  | '/' :: cs => (takeNum1 (dropWs cs)).map fun p => (some p.1, p.2)
  | cs => some (none, cs)

/-- `\)`: the closing parenthesis. -/
def closeParen : List Char → Option (List Char)
  | ')' :: cs => some cs
  | _ => none

/-- The literal `oklch(` that opens the pattern. -/
def litOklch : List Char := ['o', 'k', 'l', 'c', 'h', '(']

/-- The four capture groups of a successful match of
`/oklch\(\s*([\d.]+)%?\s+([\d.]+)\s+([\d.]+)\s*(?:\/\s*([\d.]+))?\s*\)/`. -/
structure RawMatch where
  g1 : List Char
  g2 : List Char
  g3 : List Char
  g4 : Option (List Char)
deriving DecidableEq, Repr

/-- Attempts the pattern at the current position.  The steps mirror the
pattern left to right; because the character classes `[\d.]`, `\s` and
the literals `%`, `/`, `)` are pairwise disjoint, backtracking never
changes the outcome and the match is deterministic. -/
def matchOklchAt (cs : List Char) : Option RawMatch :=
  (stripLit litOklch cs).bind fun r0 =>
  (takeNum1 (dropWs r0)).bind fun p1 =>
  (ws1 (stripPct p1.2)).bind fun r2 =>
  (takeNum1 r2).bind fun p2 =>
  (ws1 p2.2).bind fun r4 =>
  (takeNum1 r4).bind fun p3 =>
  (alphaPart (dropWs p3.2)).bind fun p4 =>
  (closeParen (dropWs p4.2)).bind fun _ =>
  some ⟨p1.1, p2.1, p3.1, p4.1⟩

/-- Unanchored search: the pattern is tried at every start position in
order, as `String.prototype.match` does with a non-global pattern. -/
def findMatch : List Char → Option RawMatch
  | [] => none
  | c :: cs =>
    match matchOklchAt (c :: cs) with
    | some m => some m
    | none => findMatch cs

/-- Numeric value of a digit string (most significant digit first). -/
def valNat (cs : List Char) : ℕ :=
  cs.foldl (fun a c => 10 * a + (c.toNat - 48)) 0

/-- `parseFloat` on a capture of `[\d.]+`: the longest valid decimal
prefix `digits [. digits]` is converted; a capture with no digit before
a second dot (such as `"."` or `".."`) yields `NaN`, and a value at or
beyond the binary64 boundary overflows to `Infinity`. -/
def jsParseFloat (cs : List Char) : JSNum :=
  let p := takeDigits cs
  match p.2 with
  | '.' :: r2 =>
    let ds2 := (takeDigits r2).1
    if p.1.isEmpty && ds2.isEmpty then JSVal.nan
    else jsOfRat ((valNat p.1 : ℚ) + (valNat ds2 : ℚ) / 10 ^ ds2.length)
  | _ => if p.1.isEmpty then JSVal.nan else jsOfRat ((valNat p.1 : ℚ))

/-- Embeds `parseOklch` (source lines 12-29): match the pattern, then
convert the captures with `parseFloat`, dividing `L` by 100 when its
value exceeds 1 and defaulting `A` to 1 when the group is absent. -/
def parseOklch (oklchColor : String) : Option Oklch :=
  (findMatch oklchColor.data).map fun m =>
    let L0 := jsParseFloat m.g1
    { L := if jsGtOne L0 then jsDiv100 L0 else L0
      C := jsParseFloat m.g2
      H := jsParseFloat m.g3
      A := match m.g4 with
           | some g => jsParseFloat g
           | none => jq 1 }

/-! ### Decimal rendering -/

/-- The character of a single decimal digit. -/
def digitChar (d : ℕ) : Char := Char.ofNat (48 + d)

/-- Decimal digits of a natural number, most significant first
(`0` renders as `"0"`). -/
def natDigits (n : ℕ) : List Char :=
  if _h : n < 10 then [digitChar n]
  else natDigits (n / 10) ++ [digitChar (n % 10)]
termination_by n
decreasing_by exact Nat.div_lt_self (by omega) (by omega)

/-- Digits of `n` left-padded with zeros to width `f`. -/
def padDigits (f n : ℕ) : List Char :=
  List.replicate (f - (natDigits n).length) '0' ++ natDigits n

/-- Removes trailing decimal zeros from a natural number. -/
def stripZeros (n : ℕ) : ℕ :=
  if n % 10 = 0 ∧ n ≠ 0 then stripZeros (n / 10) else n
termination_by n
decreasing_by exact Nat.div_lt_self (by omega) (by omega)

/-- Number-to-string conversion for a positive rational, following the
ECMAScript `ToString` layout: plain digits for integral values up to
`10^21`, a decimal point for values printable with at most 6 leading
zeros, exponent notation otherwise.  The expansion is computed to 20
fractional digits; longer expansions are truncated there. -/
def jsPosChars (q : ℚ) : List Char :=
  let m : ℕ := (⌊q * 10 ^ 20⌋).toNat
  if m = 0 then ['0']
  else
    let s := stripZeros m
    let ds := natDigits s
    let k : ℤ := ds.length
    let n : ℤ := (natDigits m).length - 20
    if k ≤ n ∧ n ≤ 21 then ds ++ List.replicate (n - k).toNat '0'
    else if 0 < n ∧ n ≤ 21 then ds.take n.toNat ++ '.' :: ds.drop n.toNat
    else if -6 < n ∧ n ≤ 0 then '0' :: '.' :: (List.replicate (-n).toNat '0' ++ ds)
    else
      ds.take 1 ++ (if 1 < k then '.' :: ds.drop 1 else []) ++
        'e' :: (if n - 1 < 0 then '-' :: natDigits (n - 1).natAbs
                else '+' :: natDigits (n - 1).natAbs)

/-- ECMAScript number-to-string conversion on the rational model. -/
def jsRatToChars (q : ℚ) : List Char :=
  if q < 0 then '-' :: jsPosChars (-q) else jsPosChars q

/-- `toFixed f` on a non-negative rational: the nearest multiple of
`10 ^ (-f)` (ties away from zero), written with exactly `f` digits
after the point. -/
def fixedNonneg (f : ℕ) (q : ℚ) : List Char :=
  let n : ℕ := (⌊q * 10 ^ f + 1 / 2⌋).toNat
  if f = 0 then natDigits n
  else natDigits (n / 10 ^ f) ++ '.' :: padDigits f (n % 10 ^ f)

/-- `Number.prototype.toFixed f`: values of magnitude at least `10^21`
fall back to plain number-to-string conversion, otherwise the sign is
extracted and the magnitude is rendered with `f` fixed decimals. -/
def jsToFixedChars (f : ℕ) (q : ℚ) : List Char :=
  if 10 ^ 21 ≤ |q| then jsRatToChars q
  else if q < 0 then '-' :: fixedNonneg f (-q)
  else fixedNonneg f q

/-- `toFixed` lifted to JavaScript numbers; `NaN` renders as `"NaN"`
and the infinities as `"Infinity"`/`"-Infinity"`. -/
def jsToFixedStr (f : ℕ) : JSNum → String
  | JSVal.nan => "NaN"
  | JSVal.posInf => "Infinity"
  | JSVal.negInf => "-Infinity"
  | JSVal.num q => String.mk (jsToFixedChars f q)

/-- Template-literal interpolation of a number (`ToString`); `NaN`
renders as `"NaN"` and the infinities as `"Infinity"`/`"-Infinity"`. -/
def jsNumToStr : JSNum → String
  | JSVal.nan => "NaN"
  | JSVal.posInf => "Infinity"
  | JSVal.negInf => "-Infinity"
  | JSVal.num q => String.mk (jsRatToChars q)

/-- Embeds `formatOklch` (source lines 34-43): lightness as a
percentage with 2 decimals, chroma with 4 decimals, hue with
2 decimals, alpha interpolated as given. -/
def formatOklch (L C H A : JSNum) : String :=
  "oklch(" ++ jsToFixedStr 2 (jsMul L (jq 100)) ++ "% " ++ jsToFixedStr 4 C ++ " "
    ++ jsToFixedStr 2 H ++ " / " ++ jsNumToStr A ++ ")"

/-! ### Derivation functions -/

/-- The `newL` binding of `generateCardColor` (source lines 78-87):
`max(0, L - (1 - L + 0.12) * lightnessBoost * 5)` for light themes,
`min(1, L + L * lightnessBoost)` for dark themes. -/
def cardNewL (L : JSNum) (isLight : Bool) (lightnessBoost : ℚ) : JSNum :=
  if isLight then
    jsMax (jq 0)
      (jsSub L (jsMul (jsMul (jsAdd (jsSub (jq 1) L) (jq 0.12)) (jq lightnessBoost)) (jq 5)))
  else jsMin (jq 1) (jsAdd L (jsMul L (jq lightnessBoost)))

/-- The `newC` binding of `generateCardColor` (source lines 82 and 86):
`min(0.37, C * chromaMultiplier)`. -/
def cardNewC (C : JSNum) (chromaMultiplier : ℚ) : JSNum :=
  jsMin (jq 0.37) (jsMul C (jq chromaMultiplier))

/-- Default `lightnessBoost` of `generateCardColor` (source line 64). -/
def cardLightnessBoostDefault : ℚ := 0.2

/-- Default `chromaMultiplier` of `generateCardColor` (source line 65). -/
def cardChromaMultiplierDefault : ℚ := 1.2

/-- Embeds `generateCardColor` (source lines 61-90).  The
`console.warn` diagnostic on the fallback path is a side effect with no
influence on the returned value and is not modelled. -/
def generateCardColor (backgroundColor : String) (isLight : Bool)
    (lightnessBoost chromaMultiplier : ℚ) : String :=
  match parseOklch backgroundColor with
  | none => backgroundColor
  | some parsed =>
    formatOklch (cardNewL parsed.L isLight lightnessBoost)
      (cardNewC parsed.C chromaMultiplier) parsed.H parsed.A

/-- The `newL` binding of `generateBorderColor` (source lines 124-131):
`max(0, L - (1 - L + 0.15) * lightnessBoost * 2)` for light themes,
`min(1, L + L * lightnessBoost)` for dark themes. -/
def borderNewL (L : JSNum) (isLight : Bool) (lightnessBoost : ℚ) : JSNum :=
  if isLight then
    jsMax (jq 0)
      (jsSub L (jsMul (jsMul (jsAdd (jsSub (jq 1) L) (jq 0.15)) (jq lightnessBoost)) (jq 2)))
  else jsMin (jq 1) (jsAdd L (jsMul L (jq lightnessBoost)))

/-- The `newC` binding of `generateBorderColor` (source lines 127 and
131): `min(0.37, C * chromaMultiplier)`. -/
def borderNewC (C : JSNum) (chromaMultiplier : ℚ) : JSNum :=
  jsMin (jq 0.37) (jsMul C (jq chromaMultiplier))

/-- Default `lightnessBoost` of `generateBorderColor` (source line 110). -/
def borderLightnessBoostDefault : ℚ := 0.75

/-- Default `chromaMultiplier` of `generateBorderColor` (source line 111). -/
def borderChromaMultiplierDefault : ℚ := 1.85

/-- Embeds `generateBorderColor` (source lines 107-135). -/
def generateBorderColor (backgroundColor : String) (isLight : Bool)
    (lightnessBoost chromaMultiplier : ℚ) : String :=
  match parseOklch backgroundColor with
  | none => backgroundColor
  | some parsed =>
    formatOklch (borderNewL parsed.L isLight lightnessBoost)
      (borderNewC parsed.C chromaMultiplier) parsed.H parsed.A

/-- The `newL` binding of `generateAccentColor` (source line 162):
`max(0.05, L - lightnessReduction * L)`. -/
def accentNewL (L : JSNum) (lightnessReduction : ℚ) : JSNum :=
  jsMax (jq 0.05) (jsSub L (jsMul (jq lightnessReduction) L))

/-- The `newC` binding of `generateAccentColor` (source line 163):
`min(0.37, C + chromaBoost)`. -/
def accentNewC (C : JSNum) (chromaBoost : ℚ) : JSNum :=
  jsMin (jq 0.37) (jsAdd C (jq chromaBoost))

/-- Default `lightnessReduction` of `generateAccentColor` (source line 152). -/
def accentLightnessReductionDefault : ℚ := 0.25

/-- Default `chromaBoost` of `generateAccentColor` (source line 153). -/
def accentChromaBoostDefault : ℚ := 0.05

/-- Embeds `generateAccentColor` (source lines 150-166). -/
def generateAccentColor (color : String)
    (lightnessReduction chromaBoost : ℚ) : String :=
  match parseOklch color with
  | none => color
  | some parsed =>
    formatOklch (accentNewL parsed.L lightnessReduction)
      (accentNewC parsed.C chromaBoost) parsed.H parsed.A

/-- The `newL` binding of `generateButtonBorderColor` (source line 194):
`max(0.05, L - lightnessReduction * L)`. -/
def buttonBorderNewL (L : JSNum) (lightnessReduction : ℚ) : JSNum :=
  jsMax (jq 0.05) (jsSub L (jsMul (jq lightnessReduction) L))

/-- The `newC` binding of `generateButtonBorderColor` (source line 195):
`min(0.37, C + chromaBoost)`. -/
def buttonBorderNewC (C : JSNum) (chromaBoost : ℚ) : JSNum :=
  jsMin (jq 0.37) (jsAdd C (jq chromaBoost))

/-- Default `lightnessReduction` of `generateButtonBorderColor`
(source line 184). -/
def buttonBorderLightnessReductionDefault : ℚ := 0.25

/-- Default `chromaBoost` of `generateButtonBorderColor`
(source line 185). -/
def buttonBorderChromaBoostDefault : ℚ := 0.05

/-- Embeds `generateButtonBorderColor` (source lines 182-198). -/
def generateButtonBorderColor (oklchColor : String)
    (lightnessReduction chromaBoost : ℚ) : String :=
  match parseOklch oklchColor with
  | none => oklchColor
  | some parsed =>
    formatOklch (buttonBorderNewL parsed.L lightnessReduction)
      (buttonBorderNewC parsed.C chromaBoost) parsed.H parsed.A

/-! ### Digit and character lemmas -/

/-- Characters useful to the matcher walk: numeric, not whitespace, and
distinct from every letter of the literal `oklch(`. -/
def goodChar (c : Char) : Prop :=
  numChar c = true ∧ wsChar c = false ∧ c ≠ 'o'

theorem overflowBound_big : (10 : ℚ) ^ 30 < overflowBound := by
  rw [overflowBound]
  norm_num

theorem jsOfRat_small {q : ℚ} (h0 : 0 ≤ q) (h1 : q ≤ 10 ^ 30) : jsOfRat q = jq q := by
  have hb := overflowBound_big
  have h30 : (0 : ℚ) < 10 ^ 30 := by positivity
  rw [jsOfRat, if_neg (by linarith), if_neg (by linarith)]
  rfl

theorem jsOfRat_overflow {q : ℚ} (h : overflowBound ≤ q) : jsOfRat q = JSVal.posInf := by
  rw [jsOfRat, if_pos h]

theorem digitChar_isDigit {d : ℕ} (h : d < 10) : (digitChar d).isDigit = true := by
  interval_cases d <;> decide

theorem digitChar_good {d : ℕ} (h : d < 10) : goodChar (digitChar d) := by
  interval_cases d <;> exact ⟨by decide, by decide, by decide⟩

theorem digitChar_toNat {d : ℕ} (h : d < 10) : (digitChar d).toNat = 48 + d := by
  interval_cases d <;> decide

theorem natDigits_ne_nil (n : ℕ) : natDigits n ≠ [] := by
  rw [natDigits]
  split <;> simp

theorem natDigits_length_pos (n : ℕ) : 0 < (natDigits n).length :=
  List.length_pos.mpr (natDigits_ne_nil n)

theorem mem_natDigits_digit : ∀ n : ℕ, ∀ c ∈ natDigits n, ∃ d, d < 10 ∧ c = digitChar d := by
  intro n
  induction n using Nat.strong_induction_on with
  | _ n ih =>
    intro c hc
    rw [natDigits] at hc
    split at hc
    · next h =>
      simp only [List.mem_singleton] at hc
      exact ⟨n, h, hc⟩
    · next h =>
      simp only [List.mem_append, List.mem_singleton] at hc
      rcases hc with hc | hc
      · exact ih (n / 10) (Nat.div_lt_self (by omega) (by omega)) c hc
      · exact ⟨n % 10, Nat.mod_lt _ (by omega), hc⟩

theorem mem_natDigits_isDigit {n : ℕ} {c : Char} (hc : c ∈ natDigits n) :
    c.isDigit = true := by
  obtain ⟨d, hd, rfl⟩ := mem_natDigits_digit n c hc
  exact digitChar_isDigit hd

theorem mem_natDigits_good {n : ℕ} {c : Char} (hc : c ∈ natDigits n) : goodChar c := by
  obtain ⟨d, hd, rfl⟩ := mem_natDigits_digit n c hc
  exact digitChar_good hd

theorem valNat_from (cs : List Char) (a : ℕ) :
    cs.foldl (fun a c => 10 * a + (c.toNat - 48)) a = a * 10 ^ cs.length + valNat cs := by
  induction cs generalizing a with
  | nil => simp [valNat]
  | cons c cs ih =>
    show cs.foldl _ (10 * a + (c.toNat - 48)) = _
    rw [ih]
    have h2 : valNat (c :: cs) = (10 * 0 + (c.toNat - 48)) * 10 ^ cs.length + valNat cs := by
      show cs.foldl _ (10 * 0 + (c.toNat - 48)) = _
      rw [ih]
    rw [h2, List.length_cons]
    ring

theorem valNat_append (xs ys : List Char) :
    valNat (xs ++ ys) = valNat xs * 10 ^ ys.length + valNat ys := by
  show (xs ++ ys).foldl _ 0 = _
  rw [List.foldl_append]
  exact valNat_from ys _

theorem valNat_natDigits : ∀ n : ℕ, valNat (natDigits n) = n := by
  intro n
  induction n using Nat.strong_induction_on with
  | _ n ih =>
    rw [natDigits]
    split
    · next h =>
      show [digitChar n].foldl _ 0 = n
      simp [digitChar_toNat h]
    · next h =>
      rw [valNat_append, ih (n / 10) (Nat.div_lt_self (by omega) (by omega))]
      have hlt : n % 10 < 10 := Nat.mod_lt n (by omega)
      have hm : valNat [digitChar (n % 10)] = n % 10 := by
        show [digitChar (n % 10)].foldl _ 0 = n % 10
        simp [digitChar_toNat hlt]
      rw [hm]
      simp only [List.length_singleton, pow_one]
      omega

theorem valNat_replicate_zero (z : ℕ) (ds : List Char) :
    valNat (List.replicate z '0' ++ ds) = valNat ds := by
  induction z with
  | zero => simp
  | succ z ih =>
    rw [List.replicate_succ, List.cons_append]
    show (List.replicate z '0' ++ ds).foldl _ (10 * 0 + ('0'.toNat - 48)) = _
    have h0 : 10 * 0 + ('0'.toNat - 48) = 0 := by decide
    rw [h0]
    exact ih

theorem natDigits_length_le : ∀ n f : ℕ, 0 < f → n < 10 ^ f → (natDigits n).length ≤ f := by
  intro n
  induction n using Nat.strong_induction_on with
  | _ n ih =>
    intro f hf hn
    rw [natDigits]
    split
    · next h => simpa using hf
    · next h =>
      have hf2 : 2 ≤ f := by
        by_contra hc
        have hf1 : f = 1 := by omega
        subst hf1
        norm_num at hn
        omega
      have hdiv : n / 10 < 10 ^ (f - 1) := by
        rw [Nat.div_lt_iff_lt_mul (by omega)]
        calc n < 10 ^ f := hn
        _ = 10 ^ (f - 1) * 10 := by
              rw [← pow_succ]
              congr 1
              omega
      have := ih (n / 10) (Nat.div_lt_self (by omega) (by omega)) (f - 1) (by omega) hdiv
      rw [List.length_append, List.length_singleton]
      omega

theorem natDigits_length_gt : ∀ n f : ℕ, 10 ^ f ≤ n → f < (natDigits n).length := by
  intro n
  induction n using Nat.strong_induction_on with
  | _ n ih =>
    intro f hn
    rw [natDigits]
    split
    · next h =>
      have : f = 0 := by
        by_contra hc
        have : 10 ≤ 10 ^ f := by
          calc (10:ℕ) = 10 ^ 1 := (pow_one 10).symm
          _ ≤ 10 ^ f := Nat.pow_le_pow_right (by omega) (by omega)
        omega
      simp [this]
    · next h =>
      rw [List.length_append, List.length_singleton]
      rcases Nat.eq_zero_or_pos f with rfl | hf
      · have := natDigits_length_pos (n / 10)
        omega
      · have hdiv : 10 ^ (f - 1) ≤ n / 10 := by
          rw [Nat.le_div_iff_mul_le (by omega)]
          calc 10 ^ (f - 1) * 10 = 10 ^ f := by
                rw [← pow_succ]
                congr 1
                omega
          _ ≤ n := hn
        have := ih (n / 10) (Nat.div_lt_self (by omega) (by omega)) (f - 1) hdiv
        omega

theorem natDigits_mul_ten (n : ℕ) (h : n ≠ 0) :
    natDigits (n * 10) = natDigits n ++ ['0'] := by
  rw [natDigits]
  rw [dif_neg (by omega)]
  congr 1
  · congr 1
    omega
  · have h1 : n * 10 % 10 = 0 := Nat.mul_mod_left n 10
    rw [h1]
    rfl

theorem natDigits_mul_pow (s t : ℕ) (h : s ≠ 0) :
    natDigits (s * 10 ^ t) = natDigits s ++ List.replicate t '0' := by
  induction t with
  | zero => simp
  | succ t ih =>
    have hs : s * 10 ^ (t + 1) = s * 10 ^ t * 10 := by ring
    rw [hs, natDigits_mul_ten _ (by positivity), ih, List.append_assoc, ← List.replicate_succ']

theorem stripZeros_spec : ∀ m : ℕ, m ≠ 0 → ∃ t, m = stripZeros m * 10 ^ t ∧ stripZeros m ≠ 0 := by
  intro m
  induction m using Nat.strong_induction_on with
  | _ m ih =>
    intro hm
    rw [stripZeros]
    split
    · next h =>
      obtain ⟨h1, _⟩ := h
      have hd : m / 10 ≠ 0 := by omega
      obtain ⟨t, ht, hs⟩ := ih (m / 10) (Nat.div_lt_self (by omega) (by omega)) hd
      refine ⟨t + 1, ?_, hs⟩
      have hmul : m / 10 * 10 = m := Nat.div_mul_cancel (Nat.dvd_of_mod_eq_zero h1)
      rw [pow_succ, ← mul_assoc, ← ht, hmul]
    · next _ => exact ⟨0, by simp, hm⟩

theorem stripZeros_mul_pow : ∀ t s : ℕ, s ≠ 0 → stripZeros (s * 10 ^ t) = stripZeros s := by
  intro t
  induction t with
  | zero => simp
  | succ t ih =>
    intro s hs
    have hval : s * 10 ^ (t + 1) = s * 10 ^ t * 10 := by ring
    rw [hval, stripZeros]
    rw [if_pos ⟨Nat.mul_mod_left _ _, by positivity⟩]
    rw [Nat.mul_div_cancel _ (by omega)]
    exact ih s hs

/-! ### Scanning lemmas -/

theorem takeDigits_append : ∀ ds rest : List Char,
    (∀ c ∈ ds, c.isDigit = true) →
    (∀ c, rest.head? = some c → c.isDigit = false) →
    takeDigits (ds ++ rest) = (ds, rest) := by
  intro ds
  induction ds with
  | nil =>
    intro rest _ h2
    rw [List.nil_append]
    cases rest with
    | nil => rfl
    | cons c cs => rw [takeDigits, if_neg (by simp [h2 c rfl])]
  | cons d ds ih =>
    intro rest h1 h2
    rw [List.cons_append, takeDigits, if_pos (h1 d (List.mem_cons_self d ds))]
    rw [ih rest (fun c hc => h1 c (List.mem_cons_of_mem _ hc)) h2]

theorem takeNum_append : ∀ g rest : List Char,
    (∀ c ∈ g, numChar c = true) →
    (∀ c, rest.head? = some c → numChar c = false) →
    takeNum (g ++ rest) = (g, rest) := by
  intro g
  induction g with
  | nil =>
    intro rest _ h2
    rw [List.nil_append]
    cases rest with
    | nil => rfl
    | cons c cs => rw [takeNum, if_neg (by simp [h2 c rfl])]
  | cons d g ih =>
    intro rest h1 h2
    rw [List.cons_append, takeNum, if_pos (h1 d (List.mem_cons_self d g))]
    rw [ih rest (fun c hc => h1 c (List.mem_cons_of_mem _ hc)) h2]

theorem takeNum_fst_numChar : ∀ cs : List Char, ∀ c ∈ (takeNum cs).1, numChar c = true := by
  intro cs
  induction cs with
  | nil => intro c hc; simp [takeNum] at hc
  | cons d cs ih =>
    intro c hc
    rw [takeNum] at hc
    by_cases hd : numChar d = true
    · rw [if_pos hd] at hc
      rcases List.mem_cons.1 hc with rfl | hc
      · exact hd
      · exact ih c hc
    · rw [if_neg hd] at hc
      simp at hc
  
theorem dropWs_eq_self : ∀ cs : List Char,
    (∀ c, cs.head? = some c → wsChar c = false) → dropWs cs = cs := by
  intro cs h
  cases cs with
  | nil => rfl
  | cons c cs => rw [dropWs, if_neg (by simp [h c rfl])]

theorem natDigits_isEmpty (n : ℕ) : (natDigits n).isEmpty = false := by
  cases h : natDigits n with
  | nil => exact absurd h (natDigits_ne_nil n)
  | cons a l => rfl

/-! ### Parsing the formatter's fixed-point output -/

theorem mem_padDigits_good {f n : ℕ} {c : Char} (hc : c ∈ padDigits f n) : goodChar c := by
  unfold padDigits at hc
  rcases List.mem_append.1 hc with hc | hc
  · rw [List.eq_of_mem_replicate hc]
    exact ⟨by decide, by decide, by decide⟩
  · exact mem_natDigits_good hc

theorem mem_padDigits_isDigit {f n : ℕ} {c : Char} (hc : c ∈ padDigits f n) :
    c.isDigit = true := by
  unfold padDigits at hc
  rcases List.mem_append.1 hc with hc | hc
  · rw [List.eq_of_mem_replicate hc]
    decide
  · exact mem_natDigits_isDigit hc

theorem padDigits_length {f n : ℕ} (hf : 0 < f) (hn : n < 10 ^ f) :
    (padDigits f n).length = f := by
  unfold padDigits
  rw [List.length_append, List.length_replicate]
  have := natDigits_length_le n f hf hn
  omega

theorem valNat_padDigits (f n : ℕ) : valNat (padDigits f n) = n := by
  unfold padDigits
  rw [valNat_replicate_zero, valNat_natDigits]

theorem fixedNonneg_eq (f : ℕ) (q : ℚ) (hf : f ≠ 0) :
    fixedNonneg f q =
      natDigits ((⌊q * 10 ^ f + 1 / 2⌋).toNat / 10 ^ f) ++
        '.' :: padDigits f ((⌊q * 10 ^ f + 1 / 2⌋).toNat % 10 ^ f) := by
  simp [fixedNonneg, hf]

theorem fixedNonneg_ne_nil (f : ℕ) (q : ℚ) (hf : f ≠ 0) : fixedNonneg f q ≠ [] := by
  rw [fixedNonneg_eq f q hf]
  simp [natDigits_ne_nil]

theorem mem_fixedNonneg_good {f : ℕ} {q : ℚ} (hf : f ≠ 0) {c : Char}
    (hc : c ∈ fixedNonneg f q) : goodChar c := by
  rw [fixedNonneg_eq f q hf] at hc
  rcases List.mem_append.1 hc with hc | hc
  · exact mem_natDigits_good hc
  · rcases List.mem_cons.1 hc with rfl | hc
    · exact ⟨by decide, by decide, by decide⟩
    · exact mem_padDigits_good hc

theorem jsParseFloat_fixedNonneg (f : ℕ) (q : ℚ) (hf : 0 < f) (hq0 : 0 ≤ q)
    (hq : q ≤ 10 ^ 25) :
    jsParseFloat (fixedNonneg f q) =
      jq (((⌊q * 10 ^ f + 1 / 2⌋).toNat : ℚ) / 10 ^ f) := by
  set n : ℕ := (⌊q * 10 ^ f + 1 / 2⌋).toNat with hn
  have hmod : n % 10 ^ f < 10 ^ f := Nat.mod_lt _ (by positivity)
  have hTD : takeDigits (natDigits (n / 10 ^ f) ++ '.' :: padDigits f (n % 10 ^ f)) =
      (natDigits (n / 10 ^ f), '.' :: padDigits f (n % 10 ^ f)) := by
    refine takeDigits_append _ _ (fun c hc => mem_natDigits_isDigit hc) ?_
    intro c hc
    simp only [List.head?_cons, Option.some.injEq] at hc
    rw [← hc]
    decide
  have hTD2 : takeDigits (padDigits f (n % 10 ^ f)) = (padDigits f (n % 10 ^ f), []) := by
    have := takeDigits_append (padDigits f (n % 10 ^ f)) []
      (fun c hc => mem_padDigits_isDigit hc) (by intro c hc; simp at hc)
    simpa using this
  rw [fixedNonneg_eq f q (by omega)]
  rw [jsParseFloat]
  rw [hTD]
  simp only [hTD2, natDigits_isEmpty, Bool.false_and, Bool.false_eq_true, if_false,
    valNat_natDigits, valNat_padDigits, padDigits_length hf hmod]
  have harg : ((n / 10 ^ f : ℕ) : ℚ) + ((n % 10 ^ f : ℕ) : ℚ) / 10 ^ f =
      (n : ℚ) / 10 ^ f := by
    have hpow : ((10 : ℚ) ^ f) ≠ 0 := by positivity
    field_simp
    norm_cast
    rw [mul_comm]
    exact Nat.div_add_mod n (10 ^ f)
  rw [harg]
  refine jsOfRat_small (by positivity) ?_
  have hy : (0 : ℚ) ≤ q * 10 ^ f + 1 / 2 := by
    have := mul_nonneg hq0 (by positivity : (0 : ℚ) ≤ 10 ^ f)
    linarith
  have h0 : (0 : ℤ) ≤ ⌊q * 10 ^ f + 1 / 2⌋ := Int.floor_nonneg.2 hy
  have hcast : ((n : ℕ) : ℚ) = ((⌊q * 10 ^ f + 1 / 2⌋ : ℤ) : ℚ) := by
    rw [hn]
    exact_mod_cast congrArg (fun z : ℤ => (z : ℚ)) (Int.toNat_of_nonneg h0)
  have hup : (n : ℚ) ≤ q * 10 ^ f + 1 / 2 := by
    rw [hcast]
    exact Int.floor_le _
  rw [div_le_iff₀ (by positivity : (0 : ℚ) < 10 ^ f)]
  have hf1 : (1 : ℚ) ≤ 10 ^ f := by
    exact_mod_cast Nat.one_le_pow f 10 (by norm_num)
  have hmul : q * 10 ^ f ≤ 10 ^ 25 * 10 ^ f :=
    mul_le_mul_of_nonneg_right hq (by positivity)
  have hlast : (10 ^ 25 + 1 : ℚ) ≤ 10 ^ 30 := by norm_num
  calc (n : ℚ) ≤ q * 10 ^ f + 1 / 2 := hup
  _ ≤ 10 ^ 25 * 10 ^ f + 1 * 10 ^ f := by linarith
  _ = (10 ^ 25 + 1) * 10 ^ f := by ring
  _ ≤ 10 ^ 30 * 10 ^ f := mul_le_mul_of_nonneg_right hlast (by positivity)

/-! ### Matcher walk lemmas -/

theorem dropWs_cons_not_ws {c : Char} {cs : List Char} (h : wsChar c = false) :
    dropWs (c :: cs) = c :: cs := by
  rw [dropWs, if_neg (by simp [h])]

theorem dropWs_cons_ws {c : Char} {cs : List Char} (h : wsChar c = true) :
    dropWs (c :: cs) = dropWs cs := by
  rw [dropWs, if_pos h]

theorem ws1_space (cs : List Char) : ws1 (' ' :: cs) = some (dropWs cs) := by
  rw [ws1, if_pos (by decide)]

theorem takeNum1_eq (g rest : List Char) (hg : g ≠ []) (h1 : ∀ c ∈ g, numChar c = true)
    (h2 : ∀ c, rest.head? = some c → numChar c = false) :
    takeNum1 (g ++ rest) = some (g, rest) := by
  rw [takeNum1, takeNum_append g rest h1 h2]
  cases g with
  | nil => exact absurd rfl hg
  | cons a t => rfl

theorem goodChar_append_not_ws {g rest : List Char} (hg : g ≠ [])
    (hc : ∀ c ∈ g, goodChar c) : dropWs (g ++ rest) = g ++ rest := by
  cases g with
  | nil => exact absurd rfl hg
  | cons a t =>
    rw [List.cons_append]
    exact dropWs_cons_not_ws (hc a (List.mem_cons_self a t)).2.1

theorem stripPct_pct (cs : List Char) : stripPct ('%' :: cs) = cs := rfl

theorem closeParen_close (cs : List Char) : closeParen (')' :: cs) = some cs := rfl

theorem matchOklchAt_formatted
    (g1 g2 g3 g4 : List Char)
    (h1 : g1 ≠ []) (h1c : ∀ c ∈ g1, goodChar c)
    (h2 : g2 ≠ []) (h2c : ∀ c ∈ g2, goodChar c)
    (h3 : g3 ≠ []) (h3c : ∀ c ∈ g3, goodChar c)
    (h4 : g4 ≠ []) (h4c : ∀ c ∈ g4, goodChar c) :
    matchOklchAt ('o' :: 'k' :: 'l' :: 'c' :: 'h' :: '(' ::
        (g1 ++ '%' :: ' ' :: (g2 ++ ' ' :: (g3 ++ ' ' :: '/' :: ' ' :: (g4 ++ [')']))))) =
      some ⟨g1, g2, g3, some g4⟩ := by
  have hstrip : stripLit litOklch ('o' :: 'k' :: 'l' :: 'c' :: 'h' :: '(' ::
      (g1 ++ '%' :: ' ' :: (g2 ++ ' ' :: (g3 ++ ' ' :: '/' :: ' ' :: (g4 ++ [')']))))) =
      some (g1 ++ '%' :: ' ' :: (g2 ++ ' ' :: (g3 ++ ' ' :: '/' :: ' ' :: (g4 ++ [')'])))) := by
    simp [stripLit, litOklch]
  have hd1 : dropWs (g1 ++ '%' :: ' ' :: (g2 ++ ' ' :: (g3 ++ ' ' :: '/' :: ' ' :: (g4 ++ [')'])))) =
      g1 ++ '%' :: ' ' :: (g2 ++ ' ' :: (g3 ++ ' ' :: '/' :: ' ' :: (g4 ++ [')']))) :=
    goodChar_append_not_ws h1 h1c
  have hn1 : takeNum1 (g1 ++ '%' :: ' ' :: (g2 ++ ' ' :: (g3 ++ ' ' :: '/' :: ' ' :: (g4 ++ [')'])))) =
      some (g1, '%' :: ' ' :: (g2 ++ ' ' :: (g3 ++ ' ' :: '/' :: ' ' :: (g4 ++ [')'])))) := by
    refine takeNum1_eq _ _ h1 (fun c hc => (h1c c hc).1) ?_
    intro c hc
    simp only [List.head?_cons, Option.some.injEq] at hc
    rw [← hc]
    decide
  have hd2 : dropWs (g2 ++ ' ' :: (g3 ++ ' ' :: '/' :: ' ' :: (g4 ++ [')']))) =
      g2 ++ ' ' :: (g3 ++ ' ' :: '/' :: ' ' :: (g4 ++ [')'])) :=
    goodChar_append_not_ws h2 h2c
  have hn2 : takeNum1 (g2 ++ ' ' :: (g3 ++ ' ' :: '/' :: ' ' :: (g4 ++ [')']))) =
      some (g2, ' ' :: (g3 ++ ' ' :: '/' :: ' ' :: (g4 ++ [')']))) := by
    refine takeNum1_eq _ _ h2 (fun c hc => (h2c c hc).1) ?_
    intro c hc
    simp only [List.head?_cons, Option.some.injEq] at hc
    rw [← hc]
    decide
  have hd3 : dropWs (g3 ++ ' ' :: '/' :: ' ' :: (g4 ++ [')'])) =
      g3 ++ ' ' :: '/' :: ' ' :: (g4 ++ [')']) :=
    goodChar_append_not_ws h3 h3c
  have hn3 : takeNum1 (g3 ++ ' ' :: '/' :: ' ' :: (g4 ++ [')'])) =
      some (g3, ' ' :: '/' :: ' ' :: (g4 ++ [')'])) := by
    refine takeNum1_eq _ _ h3 (fun c hc => (h3c c hc).1) ?_
    intro c hc
    simp only [List.head?_cons, Option.some.injEq] at hc
    rw [← hc]
    decide
  have hn4 : takeNum1 (g4 ++ [')']) = some (g4, [')']) := by
    refine takeNum1_eq _ _ h4 (fun c hc => (h4c c hc).1) ?_
    intro c hc
    simp only [List.head?_cons, Option.some.injEq] at hc
    rw [← hc]
    decide
  have hdw3 : dropWs (' ' :: '/' :: ' ' :: (g4 ++ [')'])) = '/' :: ' ' :: (g4 ++ [')']) := by
    rw [dropWs_cons_ws (by decide)]
    exact dropWs_cons_not_ws (by decide)
  have hdw4 : dropWs (' ' :: (g4 ++ [')'])) = g4 ++ [')'] := by
    rw [dropWs_cons_ws (by decide)]
    exact goodChar_append_not_ws h4 h4c
  have halpha : alphaPart ('/' :: ' ' :: (g4 ++ [')'])) = some (some g4, [')']) := by
    simp only [alphaPart, hdw4, hn4, Option.map_some']
  have hdwp : dropWs [')'] = [')'] := dropWs_cons_not_ws (by decide)
  simp only [matchOklchAt, hstrip, Option.some_bind, hd1, hn1, stripPct_pct, ws1_space,
    hd2, hn2, hd3, hn3, hdw3, halpha, hdwp, closeParen_close]

theorem matchOklchAt_neg_hue
    (g1 g2 rest : List Char)
    (h1 : g1 ≠ []) (h1c : ∀ c ∈ g1, goodChar c)
    (h2 : g2 ≠ []) (h2c : ∀ c ∈ g2, goodChar c) :
    matchOklchAt ('o' :: 'k' :: 'l' :: 'c' :: 'h' :: '(' ::
        (g1 ++ '%' :: ' ' :: (g2 ++ ' ' :: '-' :: rest))) = none := by
  have hstrip : stripLit litOklch ('o' :: 'k' :: 'l' :: 'c' :: 'h' :: '(' ::
      (g1 ++ '%' :: ' ' :: (g2 ++ ' ' :: '-' :: rest))) =
      some (g1 ++ '%' :: ' ' :: (g2 ++ ' ' :: '-' :: rest)) := by
    simp [stripLit, litOklch]
  have hd1 : dropWs (g1 ++ '%' :: ' ' :: (g2 ++ ' ' :: '-' :: rest)) =
      g1 ++ '%' :: ' ' :: (g2 ++ ' ' :: '-' :: rest) :=
    goodChar_append_not_ws h1 h1c
  have hn1 : takeNum1 (g1 ++ '%' :: ' ' :: (g2 ++ ' ' :: '-' :: rest)) =
      some (g1, '%' :: ' ' :: (g2 ++ ' ' :: '-' :: rest)) := by
    refine takeNum1_eq _ _ h1 (fun c hc => (h1c c hc).1) ?_
    intro c hc
    simp only [List.head?_cons, Option.some.injEq] at hc
    rw [← hc]
    decide
  have hd2 : dropWs (g2 ++ ' ' :: '-' :: rest) = g2 ++ ' ' :: '-' :: rest :=
    goodChar_append_not_ws h2 h2c
  have hn2 : takeNum1 (g2 ++ ' ' :: '-' :: rest) = some (g2, ' ' :: '-' :: rest) := by
    refine takeNum1_eq _ _ h2 (fun c hc => (h2c c hc).1) ?_
    intro c hc
    simp only [List.head?_cons, Option.some.injEq] at hc
    rw [← hc]
    decide
  have hn3 : takeNum1 ('-' :: rest) = none := by
    have ht : takeNum ('-' :: rest) = ([], '-' :: rest) := by
      rw [takeNum, if_neg (by decide)]
    simp [takeNum1, ht]
  have hdm : dropWs ('-' :: rest) = '-' :: rest := dropWs_cons_not_ws (by decide)
  simp only [matchOklchAt, hstrip, Option.some_bind, hd1, hn1, stripPct_pct, ws1_space,
    hd2, hn2, hdm, hn3, Option.none_bind]

/-! ### Search lemmas -/

theorem findMatch_cons_some {c : Char} {cs : List Char} {m : RawMatch}
    (h : matchOklchAt (c :: cs) = some m) : findMatch (c :: cs) = some m := by
  rw [findMatch, h]

theorem matchOklchAt_not_o {c : Char} {cs : List Char} (h : c ≠ 'o') :
    matchOklchAt (c :: cs) = none := by
  have hstrip : stripLit litOklch (c :: cs) = none := by
    rw [litOklch]
    rw [stripLit, if_neg h]
  rw [matchOklchAt, hstrip, Option.none_bind]

theorem findMatch_none_of_no_o : ∀ cs : List Char, (∀ c ∈ cs, c ≠ 'o') →
    findMatch cs = none := by
  intro cs
  induction cs with
  | nil => intro _; rfl
  | cons c cs ih =>
    intro h
    rw [findMatch, matchOklchAt_not_o (h c (List.mem_cons_self c cs))]
    exact ih (fun d hd => h d (List.mem_cons_of_mem _ hd))

theorem findMatch_cons_none {c : Char} {cs : List Char}
    (h : matchOklchAt (c :: cs) = none) (h2 : findMatch cs = none) :
    findMatch (c :: cs) = none := by
  rw [findMatch, h, h2]

/-! ### Data of the formatted string -/

theorem string_data_append (s t : String) : (s ++ t).data = s.data ++ t.data := rfl

theorem jsToFixedStr_data (f : ℕ) (q : ℚ) :
    (jsToFixedStr f (jq q)).data = jsToFixedChars f q := rfl

theorem jsNumToStr_data (q : ℚ) : (jsNumToStr (jq q)).data = jsRatToChars q := rfl

theorem formatOklch_data (L C H A : ℚ) :
    (formatOklch (jq L) (jq C) (jq H) (jq A)).data =
      'o' :: 'k' :: 'l' :: 'c' :: 'h' :: '(' ::
        (jsToFixedChars 2 (L * 100) ++ '%' :: ' ' ::
          (jsToFixedChars 4 C ++ ' ' ::
            (jsToFixedChars 2 H ++ ' ' :: '/' :: ' ' ::
              (jsRatToChars A ++ [')'])))) := by
  have hmul : jsMul (jq L) (jq 100) = jq (L * 100) := rfl
  show ("oklch(" ++ jsToFixedStr 2 (jsMul (jq L) (jq 100)) ++ "% " ++ jsToFixedStr 4 (jq C)
      ++ " " ++ jsToFixedStr 2 (jq H) ++ " / " ++ jsNumToStr (jq A) ++ ")").data = _
  rw [hmul]
  simp only [string_data_append, jsToFixedStr_data, jsNumToStr_data]
  simp [List.append_assoc]

/-! ### Rounding and rendering lemmas -/

theorem floor_half_sub_le (y : ℚ) (hy : 0 ≤ y) :
    |(((⌊y + 1 / 2⌋).toNat : ℚ)) - y| ≤ 1 / 2 := by
  have h0 : (0 : ℤ) ≤ ⌊y + 1 / 2⌋ := Int.floor_nonneg.2 (by linarith)
  have h1 : ((⌊y + 1 / 2⌋ : ℤ) : ℚ) ≤ y + 1 / 2 := Int.floor_le _
  have h2 : y + 1 / 2 < (⌊y + 1 / 2⌋ : ℤ) + 1 := Int.lt_floor_add_one _
  have hcast : ((⌊y + 1 / 2⌋.toNat : ℕ) : ℚ) = ((⌊y + 1 / 2⌋ : ℤ) : ℚ) := by
    have h3 := Int.toNat_of_nonneg h0
    exact_mod_cast congrArg (fun z : ℤ => (z : ℚ)) h3
  rw [hcast, abs_le]
  constructor <;> linarith

theorem ne_o_of_mem_natDigits {n : ℕ} {c : Char} (hc : c ∈ natDigits n) : c ≠ 'o' :=
  (mem_natDigits_good hc).2.2

theorem mem_jsPosChars_ne_o (q : ℚ) : ∀ c ∈ jsPosChars q, c ≠ 'o' := by
  intro c hc
  simp only [jsPosChars] at hc
  split at hc
  · simp only [List.mem_singleton] at hc
    subst hc
    decide
  · split at hc
    · rcases List.mem_append.1 hc with hc | hc
      · exact ne_o_of_mem_natDigits hc
      · rw [List.eq_of_mem_replicate hc]
        decide
    · split at hc
      · rcases List.mem_append.1 hc with hc | hc
        · exact ne_o_of_mem_natDigits (List.take_subset _ _ hc)
        · rcases List.mem_cons.1 hc with rfl | hc
          · decide
          · exact ne_o_of_mem_natDigits (List.drop_subset _ _ hc)
      · split at hc
        · rcases List.mem_cons.1 hc with rfl | hc
          · decide
          rcases List.mem_cons.1 hc with rfl | hc
          · decide
          rcases List.mem_append.1 hc with hc | hc
          · rw [List.eq_of_mem_replicate hc]
            decide
          · exact ne_o_of_mem_natDigits hc
        · rcases List.mem_append.1 hc with hc | hc
          · rcases List.mem_append.1 hc with hc | hc
            · exact ne_o_of_mem_natDigits (List.take_subset _ _ hc)
            · split at hc
              · rcases List.mem_cons.1 hc with rfl | hc
                · decide
                · exact ne_o_of_mem_natDigits (List.drop_subset _ _ hc)
              · simp at hc
          · rcases List.mem_cons.1 hc with rfl | hc
            · decide
            split at hc
            · rcases List.mem_cons.1 hc with rfl | hc
              · decide
              · exact ne_o_of_mem_natDigits hc
            · rcases List.mem_cons.1 hc with rfl | hc
              · decide
              · exact ne_o_of_mem_natDigits hc

theorem mem_jsRatToChars_ne_o (q : ℚ) : ∀ c ∈ jsRatToChars q, c ≠ 'o' := by
  intro c hc
  rw [jsRatToChars] at hc
  split at hc
  · rcases List.mem_cons.1 hc with rfl | hc
    · decide
    · exact mem_jsPosChars_ne_o _ c hc
  · exact mem_jsPosChars_ne_o _ c hc

theorem mem_fixedNonneg_ne_o {f : ℕ} {q : ℚ} {c : Char} (hc : c ∈ fixedNonneg f q) :
    c ≠ 'o' := by
  simp only [fixedNonneg] at hc
  split at hc
  · exact ne_o_of_mem_natDigits hc
  · rcases List.mem_append.1 hc with hc | hc
    · exact ne_o_of_mem_natDigits hc
    · rcases List.mem_cons.1 hc with rfl | hc
      · decide
      · exact (mem_padDigits_good hc).2.2

theorem jsToFixedChars_nonneg (f : ℕ) (q : ℚ) (h0 : 0 ≤ q) (h1 : q < 10 ^ 21) :
    jsToFixedChars f q = fixedNonneg f q := by
  rw [jsToFixedChars, if_neg (by rw [abs_of_nonneg h0]; linarith), if_neg (by linarith)]

theorem jsToFixedChars_neg (f : ℕ) (q : ℚ) (h : q < 0) :
    ∃ tl, jsToFixedChars f q = '-' :: tl ∧ ∀ c ∈ tl, c ≠ 'o' := by
  rw [jsToFixedChars]
  by_cases hb : 10 ^ 21 ≤ |q|
  · rw [if_pos hb, jsRatToChars, if_pos h]
    exact ⟨_, rfl, fun c hc => mem_jsPosChars_ne_o (-q) c hc⟩
  · rw [if_neg hb, if_pos h]
    exact ⟨_, rfl, fun c hc => mem_fixedNonneg_ne_o hc⟩

theorem jsParseFloat_zero_point (ds : List Char) (hds : ∀ c ∈ ds, c.isDigit = true) :
    jsParseFloat ('0' :: '.' :: ds) = jsOfRat ((valNat ds : ℚ) / 10 ^ ds.length) := by
  have h1 : takeDigits ('0' :: '.' :: ds) = (['0'], '.' :: ds) := by
    rw [takeDigits, if_pos (by decide), takeDigits, if_neg (by decide)]
  have h2 : takeDigits ds = (ds, []) := by
    have := takeDigits_append ds [] hds (by intro c hc; simp at hc)
    simpa using this
  simp only [jsParseFloat, h1, h2]
  have hv : valNat ['0'] = 0 := by decide
  norm_num [hv]

theorem jsPosChars_decimal_branch (q : ℚ) (m : ℕ) (hm : (⌊q * 10 ^ 20⌋).toNat = m)
    (h1 : 10 ^ 14 ≤ m) (h2 : m < 10 ^ 20) :
    jsPosChars q = '0' :: '.' ::
      (List.replicate (20 - (natDigits m).length) '0' ++ natDigits (stripZeros m)) := by
  have hlenle : (natDigits m).length ≤ 20 := natDigits_length_le m 20 (by norm_num) h2
  have hlengt : 14 < (natDigits m).length := natDigits_length_gt m 14 h1
  have hkpos : 0 < (natDigits (stripZeros m)).length := natDigits_length_pos _
  simp only [jsPosChars, hm]
  rw [if_neg (by omega)]
  rw [if_neg (by omega), if_neg (by omega), if_pos (by omega)]
  have harg : (-(((natDigits m).length : ℤ) - 20)).toNat = 20 - (natDigits m).length := by
    omega
  rw [harg]

theorem jsPosChars_parse_small (q : ℚ) (hlo : 1 / 10 ^ 6 ≤ q) (hhi : q < 1) :
    jsPosChars q ≠ [] ∧ (∀ c ∈ jsPosChars q, goodChar c) ∧
      jsParseFloat (jsPosChars q) = jq (((⌊q * 10 ^ 20⌋).toNat : ℚ) / 10 ^ 20) := by
  have hfl : (10 ^ 14 : ℤ) ≤ ⌊q * 10 ^ 20⌋ := by
    rw [Int.le_floor]
    push_cast
    nlinarith
  have hfu : ⌊q * 10 ^ 20⌋ < 10 ^ 20 := by
    rw [Int.floor_lt]
    push_cast
    nlinarith
  have h1 : 10 ^ 14 ≤ (⌊q * 10 ^ 20⌋).toNat := by omega
  have h2 : (⌊q * 10 ^ 20⌋).toNat < 10 ^ 20 := by omega
  have hchars := jsPosChars_decimal_branch q _ rfl h1 h2
  set m : ℕ := (⌊q * 10 ^ 20⌋).toNat with hmdef
  set s : ℕ := stripZeros m with hsdef
  obtain ⟨t, hmt, hs0⟩ := stripZeros_spec m (by omega)
  have hnds : natDigits m = natDigits s ++ List.replicate t '0' := by
    conv_lhs => rw [hmt]
    exact natDigits_mul_pow s t hs0
  have hlen_m : (natDigits m).length = (natDigits s).length + t := by
    rw [hnds, List.length_append, List.length_replicate]
  have hlenle : (natDigits m).length ≤ 20 := natDigits_length_le m 20 (by norm_num) h2
  have hkpos : 0 < (natDigits s).length := natDigits_length_pos _
  have ht20 : t < 20 := by omega
  have hds_digits : ∀ c ∈ List.replicate (20 - (natDigits m).length) '0' ++ natDigits s,
      c.isDigit = true := by
    intro c hc
    rcases List.mem_append.1 hc with hc | hc
    · rw [List.eq_of_mem_replicate hc]
      decide
    · exact mem_natDigits_isDigit hc
  refine ⟨by rw [hchars]; simp, ?_, ?_⟩
  · intro c hc
    rw [hchars] at hc
    rcases List.mem_cons.1 hc with rfl | hc
    · exact ⟨by decide, by decide, by decide⟩
    rcases List.mem_cons.1 hc with rfl | hc
    · exact ⟨by decide, by decide, by decide⟩
    rcases List.mem_append.1 hc with hc | hc
    · rw [List.eq_of_mem_replicate hc]
      exact ⟨by decide, by decide, by decide⟩
    · exact mem_natDigits_good hc
  · rw [hchars, jsParseFloat_zero_point _ hds_digits]
    have hval : valNat (List.replicate (20 - (natDigits m).length) '0' ++ natDigits s) = s := by
      rw [valNat_replicate_zero, valNat_natDigits]
    have hlen : (List.replicate (20 - (natDigits m).length) '0' ++ natDigits s).length =
        20 - t := by
      rw [List.length_append, List.length_replicate]
      omega
    rw [hval, hlen]
    have hargeq : ((s : ℕ) : ℚ) / 10 ^ (20 - t) = ((m : ℕ) : ℚ) / 10 ^ 20 := by
      rw [div_eq_div_iff (by positivity) (by positivity)]
      have hcast : (m : ℚ) = (s : ℚ) * 10 ^ t := by
        rw [hmt]
        push_cast
        ring
      have hexp : t + (20 - t) = 20 := by omega
      rw [hcast, mul_assoc, ← pow_add, hexp]
    rw [hargeq]
    refine jsOfRat_small (by positivity) ?_
    have hmq : ((m : ℕ) : ℚ) < 10 ^ 20 := by exact_mod_cast h2
    rw [div_le_iff₀ (by positivity : (0 : ℚ) < 10 ^ 20)]
    have hbig : (10 : ℚ) ^ 20 ≤ 10 ^ 30 * 10 ^ 20 := by norm_num
    linarith

theorem natDigits_one : natDigits 1 = ['1'] := by
  rw [natDigits, dif_pos (by norm_num)]
  decide

theorem stripZeros_one : stripZeros 1 = 1 := by
  rw [stripZeros]
  norm_num

theorem jsRatToChars_one : jsRatToChars 1 = ['1'] := by
  have hm : (⌊(1 : ℚ) * 10 ^ 20⌋).toNat = 10 ^ 20 := by
    norm_num
    rfl
  rw [jsRatToChars, if_neg (by norm_num)]
  simp only [jsPosChars, hm]
  have hstrip : stripZeros (10 ^ 20) = 1 := by
    have h := stripZeros_mul_pow 20 1 one_ne_zero
    rw [one_mul] at h
    rw [h, stripZeros_one]
  have hnd : natDigits (10 ^ 20) = '1' :: List.replicate 20 '0' := by
    have h := natDigits_mul_pow 1 20 one_ne_zero
    rw [one_mul] at h
    rw [h, natDigits_one]
    rfl
  rw [if_neg (by positivity), hstrip, natDigits_one, hnd]
  norm_num

theorem jsRatToChars_zero : jsRatToChars 0 = ['0'] := by
  rw [jsRatToChars, if_neg (by norm_num)]
  simp only [jsPosChars]
  norm_num

theorem jsParseFloat_one : jsParseFloat ['1'] = jq 1 := by
  have h1 : takeDigits ['1'] = (['1'], []) := by
    rw [takeDigits, if_pos (by decide)]
    rfl
  simp only [jsParseFloat, h1]
  have hv : valNat ['1'] = 1 := by decide
  rw [show ((valNat ['1'] : ℕ) : ℚ) = 1 from by norm_num [hv]]
  rw [if_neg (by decide)]
  exact jsOfRat_small (by norm_num) (by norm_num)

theorem jsParseFloat_zero : jsParseFloat ['0'] = jq 0 := by
  have h1 : takeDigits ['0'] = (['0'], []) := by
    rw [takeDigits, if_pos (by decide)]
    rfl
  simp only [jsParseFloat, h1]
  have hv : valNat ['0'] = 0 := by decide
  rw [show ((valNat ['0'] : ℕ) : ℚ) = 0 from by norm_num [hv]]
  rw [if_neg (by decide)]
  exact jsOfRat_small (by norm_num) (by norm_num)

theorem abs_div_sub (x y k b : ℚ) (hk : 0 < k) (h : |x - y * k| ≤ b) :
    |x / k - y| ≤ b / k := by
  have heq : x / k - y = (x - y * k) / k := by
    field_simp
    ring
  rw [heq, abs_div, abs_of_pos hk]
  gcongr

theorem parse_format_components (L C H A : ℚ)
    (hL0 : 0 ≤ L) (hL1 : L ≤ 1) (hC0 : 0 ≤ C) (hC1 : C < 10 ^ 21)
    (hH0 : 0 ≤ H) (hH1 : H < 10 ^ 21)
    (h4ne : jsRatToChars A ≠ []) (h4good : ∀ c ∈ jsRatToChars A, goodChar c) :
    parseOklch (formatOklch (jq L) (jq C) (jq H) (jq A)) = some
      { L := if jsGtOne (jsParseFloat (fixedNonneg 2 (L * 100)))
             then jsDiv100 (jsParseFloat (fixedNonneg 2 (L * 100)))
             else jsParseFloat (fixedNonneg 2 (L * 100))
        C := jsParseFloat (fixedNonneg 4 C)
        H := jsParseFloat (fixedNonneg 2 H)
        A := jsParseFloat (jsRatToChars A) } := by
  have hg1 : jsToFixedChars 2 (L * 100) = fixedNonneg 2 (L * 100) :=
    jsToFixedChars_nonneg _ _ (by linarith) (by nlinarith)
  have hg2 : jsToFixedChars 4 C = fixedNonneg 4 C := jsToFixedChars_nonneg _ _ hC0 hC1
  have hg3 : jsToFixedChars 2 H = fixedNonneg 2 H := jsToFixedChars_nonneg _ _ hH0 hH1
  have hdata := formatOklch_data L C H A
  rw [hg1, hg2, hg3] at hdata
  have hmatch := matchOklchAt_formatted (fixedNonneg 2 (L * 100)) (fixedNonneg 4 C)
    (fixedNonneg 2 H) (jsRatToChars A)
    (fixedNonneg_ne_nil _ _ (by norm_num)) (fun c hc => mem_fixedNonneg_good (by norm_num) hc)
    (fixedNonneg_ne_nil _ _ (by norm_num)) (fun c hc => mem_fixedNonneg_good (by norm_num) hc)
    (fixedNonneg_ne_nil _ _ (by norm_num)) (fun c hc => mem_fixedNonneg_good (by norm_num) hc)
    h4ne h4good
  have hfind : findMatch (formatOklch (jq L) (jq C) (jq H) (jq A)).data =
      some ⟨fixedNonneg 2 (L * 100), fixedNonneg 4 C, fixedNonneg 2 H,
        some (jsRatToChars A)⟩ := by
    rw [hdata]
    exact findMatch_cons_some hmatch
  rw [parseOklch, hfind, Option.map_some']

theorem jsRatToChars_alpha (A : ℚ) (h0 : A = 0 ∨ 1 / 10 ^ 6 ≤ A) (h1 : A ≤ 1) :
    jsRatToChars A ≠ [] ∧ (∀ c ∈ jsRatToChars A, goodChar c) ∧
      ∃ a : ℚ, jsParseFloat (jsRatToChars A) = jq a ∧ |a - A| ≤ 1 / 100 := by
  rcases h0 with rfl | hlo
  · rw [jsRatToChars_zero]
    refine ⟨by simp, ?_, 0, jsParseFloat_zero, by norm_num⟩
    intro c hc
    simp only [List.mem_singleton] at hc
    subst hc
    exact ⟨by decide, by decide, by decide⟩
  · rcases lt_or_eq_of_le h1 with hlt | rfl
    · have hnn := jsPosChars_parse_small A hlo hlt
      have hns : jsRatToChars A = jsPosChars A := by
        rw [jsRatToChars, if_neg (by nlinarith)]
      rw [hns]
      refine ⟨hnn.1, hnn.2.1, _, hnn.2.2, ?_⟩
      have h0' : (0 : ℤ) ≤ ⌊A * 10 ^ 20⌋ := Int.floor_nonneg.2 (by nlinarith)
      have hfl : ((⌊A * 10 ^ 20⌋ : ℤ) : ℚ) ≤ A * 10 ^ 20 := Int.floor_le _
      have hfg : A * 10 ^ 20 - 1 < ((⌊A * 10 ^ 20⌋ : ℤ) : ℚ) := Int.sub_one_lt_floor _
      have hcast : (((⌊A * 10 ^ 20⌋).toNat : ℕ) : ℚ) = ((⌊A * 10 ^ 20⌋ : ℤ) : ℚ) := by
        exact_mod_cast congrArg (fun z : ℤ => (z : ℚ)) (Int.toNat_of_nonneg h0')
      rw [hcast]
      have hub : ((⌊A * 10 ^ 20⌋ : ℤ) : ℚ) / 10 ^ 20 ≤ A := by
        rw [div_le_iff₀ (by positivity)]
        linarith
      have hlb : A - 1 / 100 ≤ ((⌊A * 10 ^ 20⌋ : ℤ) : ℚ) / 10 ^ 20 := by
        rw [le_div_iff₀ (by positivity)]
        have hexp : (A - 1 / 100) * 10 ^ 20 = A * 10 ^ 20 - 10 ^ 18 := by ring
        rw [hexp]
        linarith
      rw [abs_le]
      constructor <;> linarith
    · rw [jsRatToChars_one]
      refine ⟨by simp, ?_, 1, jsParseFloat_one, by norm_num⟩
      intro c hc
      simp only [List.mem_singleton] at hc
      subst hc
      exact ⟨by decide, by decide, by decide⟩

theorem parseL_value (v : ℚ) :
    (if jsGtOne (jq v) then jsDiv100 (jq v) else jq v) =
      jq (if 1 < v then v / 100 else v) := by
  by_cases h : 1 < v
  · rw [if_pos (by simp [jsGtOne, jq, h]), if_pos h]
    rfl
  · rw [if_neg (by simp [jsGtOne, jq, h]), if_neg h]

/-- C1: as stated the claim is false.  At `L = 1/200`, `C = 1/10`,
`H = 200`, `A = 1` the formatter emits `"oklch(0.50% 0.1000 200.00 / 1)"`;
the parser reads the lightness literal `0.50`, which does not exceed 1,
so it is not divided by 100 and the parsed `L` is `1/2`, which differs
from the original `1/200` by `0.495 > 1e-2`. -/
theorem spec_C1_counterexample :
    parseOklch (formatOklch (jq (1 / 200)) (jq (1 / 10)) (jq 200) (jq 1)) =
      some ⟨jq (1 / 2), jq (1 / 10), jq 200, jq 1⟩ ∧
      ¬ |(1 : ℚ) / 2 - 1 / 200| ≤ 1 / 100 := by
  constructor
  · have h4ne : jsRatToChars (1 : ℚ) ≠ [] := by
      rw [jsRatToChars_one]
      simp
    have h4good : ∀ c ∈ jsRatToChars (1 : ℚ), goodChar c := by
      rw [jsRatToChars_one]
      intro c hc
      simp only [List.mem_singleton] at hc
      subst hc
      exact ⟨by decide, by decide, by decide⟩
    have hmain := parse_format_components (1 / 200) (1 / 10) 200 1 (by norm_num) (by norm_num)
      (by norm_num) (by norm_num) (by norm_num) (by norm_num) h4ne h4good
    have hfl1 : (⌊(1 : ℚ) / 200 * 100 * 10 ^ 2 + 1 / 2⌋ : ℤ) = 50 := by norm_num
    have e1 : jsParseFloat (fixedNonneg 2 ((1 : ℚ) / 200 * 100)) = jq (1 / 2) := by
      rw [jsParseFloat_fixedNonneg _ _ (by norm_num) (by norm_num) (by norm_num), hfl1,
        show ((50 : ℤ).toNat : ℕ) = 50 from rfl]
      norm_num [jq]
    have hfl2 : (⌊(1 : ℚ) / 10 * 10 ^ 4 + 1 / 2⌋ : ℤ) = 1000 := by norm_num
    have e2 : jsParseFloat (fixedNonneg 4 ((1 : ℚ) / 10)) = jq (1 / 10) := by
      rw [jsParseFloat_fixedNonneg _ _ (by norm_num) (by norm_num) (by norm_num), hfl2,
        show ((1000 : ℤ).toNat : ℕ) = 1000 from rfl]
      norm_num [jq]
    have hfl3 : (⌊(200 : ℚ) * 10 ^ 2 + 1 / 2⌋ : ℤ) = 20000 := by norm_num
    have e3 : jsParseFloat (fixedNonneg 2 (200 : ℚ)) = jq 200 := by
      rw [jsParseFloat_fixedNonneg _ _ (by norm_num) (by norm_num) (by norm_num), hfl3,
        show ((20000 : ℤ).toNat : ℕ) = 20000 from rfl]
      norm_num [jq]
    have e4 : jsParseFloat (jsRatToChars (1 : ℚ)) = jq 1 := by
      rw [jsRatToChars_one]
      exact jsParseFloat_one
    rw [hmain]
    simp only [e1, e2, e3, e4, parseL_value]
    norm_num
  · rw [abs_of_nonneg (by norm_num)]
    norm_num

/-- C1 (amended): the format-parse round trip reproduces every
component within `1e-2` provided the lightness is 0 or at least
`201/20000 ≈ 0.01005` (so that its rendered percentage literal exceeds 1
and is normalized back), the chroma and hue are non-negative and below
`10^21` (the bound where `toFixed` switches to plain conversion), and
the alpha is 0 or at least `10^-6` (the bound where number-to-string
conversion switches to exponent notation, which the parser rejects). -/
theorem spec_C1_roundtrip (L C H A : ℚ)
    (hL : L = 0 ∨ 201 / 20000 ≤ L) (hL1 : L ≤ 1)
    (hC0 : 0 ≤ C) (hC1 : C < 10 ^ 21)
    (hH0 : 0 ≤ H) (hH1 : H < 10 ^ 21)
    (hA : A = 0 ∨ 1 / 10 ^ 6 ≤ A) (hA1 : A ≤ 1) :
    ∃ l c h a : ℚ,
      parseOklch (formatOklch (jq L) (jq C) (jq H) (jq A)) = some ⟨jq l, jq c, jq h, jq a⟩ ∧
      |l - L| ≤ 1 / 100 ∧ |c - C| ≤ 1 / 100 ∧ |h - H| ≤ 1 / 100 ∧ |a - A| ≤ 1 / 100 := by
  have hL0 : 0 ≤ L := by
    rcases hL with rfl | h
    · exact le_refl 0
    · linarith
  obtain ⟨h4ne, h4good, a, h4parse, h4diff⟩ := jsRatToChars_alpha A hA hA1
  have hmain := parse_format_components L C H A hL0 hL1 hC0 hC1 hH0 hH1 h4ne h4good
  have hpow2125 : (10 : ℚ) ^ 21 ≤ 10 ^ 25 := by norm_num
  have hP1 := jsParseFloat_fixedNonneg 2 (L * 100) (by norm_num)
    (mul_nonneg hL0 (by norm_num)) (by nlinarith)
  have hP2 := jsParseFloat_fixedNonneg 4 C (by norm_num) hC0 (by linarith)
  have hP3 := jsParseFloat_fixedNonneg 2 H (by norm_num) hH0 (by linarith)
  set n1 : ℚ := ((⌊L * 100 * 10 ^ 2 + 1 / 2⌋).toNat : ℚ) with hn1
  set n2 : ℚ := ((⌊C * 10 ^ 4 + 1 / 2⌋).toNat : ℚ) with hn2
  set n3 : ℚ := ((⌊H * 10 ^ 2 + 1 / 2⌋).toNat : ℚ) with hn3
  refine ⟨if 1 < n1 / 10 ^ 2 then n1 / 10 ^ 2 / 100 else n1 / 10 ^ 2,
    n2 / 10 ^ 4, n3 / 10 ^ 2, a, ?_, ?_, ?_, ?_, h4diff⟩
  · rw [hmain]
    simp only [hP1, hP2, hP3, h4parse, parseL_value]
  · have hb1 := floor_half_sub_le (L * 100 * 10 ^ 2) (by nlinarith)
    rw [← hn1] at hb1
    have hmul : L * 100 * 10 ^ 2 = L * 10 ^ 4 := by ring
    rw [hmul] at hb1
    rcases hL with rfl | hLlo
    · have hfl : (⌊(0 : ℚ) * 100 * 10 ^ 2 + 1 / 2⌋ : ℤ) = 0 := by norm_num
      have hn1z : n1 = 0 := by
        rw [hn1, hfl]
        simp
      rw [hn1z]
      norm_num
    · have hge : 101 ≤ (⌊L * 100 * 10 ^ 2 + 1 / 2⌋).toNat := by
        have h' : (101 : ℤ) ≤ ⌊L * 100 * 10 ^ 2 + 1 / 2⌋ := by
          rw [Int.le_floor]
          push_cast
          nlinarith
        omega
      have h101 : (101 : ℚ) ≤ n1 := by
        rw [hn1]
        exact_mod_cast hge
      have hgt : 1 < n1 / 10 ^ 2 := by
        rw [lt_div_iff₀ (by norm_num)]
        linarith
      rw [if_pos hgt]
      have heq : n1 / 10 ^ 2 / 100 = n1 / 10 ^ 4 := by ring
      rw [heq]
      have hd := abs_div_sub n1 L (10 ^ 4) (1 / 2) (by norm_num) hb1
      calc |n1 / 10 ^ 4 - L| ≤ (1 / 2) / 10 ^ 4 := hd
      _ ≤ 1 / 100 := by norm_num
  · have hb2 := floor_half_sub_le (C * 10 ^ 4) (mul_nonneg hC0 (by norm_num))
    rw [← hn2] at hb2
    have hd := abs_div_sub n2 C (10 ^ 4) (1 / 2) (by norm_num) hb2
    calc |n2 / 10 ^ 4 - C| ≤ (1 / 2) / 10 ^ 4 := hd
    _ ≤ 1 / 100 := by norm_num
  · have hb3 := floor_half_sub_le (H * 10 ^ 2) (mul_nonneg hH0 (by norm_num))
    rw [← hn3] at hb3
    have hd := abs_div_sub n3 H (10 ^ 2) (1 / 2) (by norm_num) hb3
    calc |n3 / 10 ^ 2 - H| ≤ (1 / 2) / 10 ^ 2 := hd
    _ ≤ 1 / 100 := by norm_num

/-- C1 (witness): the amended round-trip theorem applied at the concrete
input `L = 1/2`, `C = 1/10`, `H = 200`, `A = 1`. -/
theorem spec_C1_witness :
    ∃ l c h a : ℚ,
      parseOklch (formatOklch (jq (1 / 2)) (jq (1 / 10)) (jq 200) (jq 1)) =
        some ⟨jq l, jq c, jq h, jq a⟩ ∧
      |l - 1 / 2| ≤ 1 / 100 ∧ |c - 1 / 10| ≤ 1 / 100 ∧ |h - 200| ≤ 1 / 100 ∧
      |a - 1| ≤ 1 / 100 :=
  spec_C1_roundtrip (1 / 2) (1 / 10) 200 1 (Or.inr (by norm_num)) (by norm_num)
    (by norm_num) (by norm_num) (by norm_num) (by norm_num) (Or.inr (by norm_num))
    (by norm_num)

/-- Shared fallback fact: when the parse returns the null sentinel,
every derivation function returns the input unchanged. -/
theorem derivations_id_of_parse_none (s : String) (hp : parseOklch s = none) :
    (∀ (isLight : Bool) (lb cm : ℚ), generateCardColor s isLight lb cm = s) ∧
    (∀ (isLight : Bool) (lb cm : ℚ), generateBorderColor s isLight lb cm = s) ∧
    (∀ r b : ℚ, generateAccentColor s r b = s) ∧
    (∀ r b : ℚ, generateButtonBorderColor s r b = s) := by
  refine ⟨?_, ?_, ?_, ?_⟩
  · intro il lb cm
    unfold generateCardColor
    rw [hp]
  · intro il lb cm
    unfold generateBorderColor
    rw [hp]
  · intro r b
    unfold generateAccentColor
    rw [hp]
  · intro r b
    unfold generateButtonBorderColor
    rw [hp]

/-- C2: whenever `parseOklch` returns the null sentinel, each of the
four derivation functions returns exactly the original input string for
every choice of the other arguments; the functions are total, so no
exception can reach the caller. -/
theorem spec_C2_fallback :
    ∀ s : String, parseOklch s = none →
      (∀ (isLight : Bool) (lb cm : ℚ), generateCardColor s isLight lb cm = s) ∧
      (∀ (isLight : Bool) (lb cm : ℚ), generateBorderColor s isLight lb cm = s) ∧
      (∀ r b : ℚ, generateAccentColor s r b = s) ∧
      (∀ r b : ℚ, generateButtonBorderColor s r b = s) :=
  fun s hp => derivations_id_of_parse_none s hp

/-- C2 (witness): the fallback theorem applied at the unparseable input
`"not-a-color"` with concrete coefficient choices. -/
theorem spec_C2_witness :
    parseOklch "not-a-color" = none ∧
    generateCardColor "not-a-color" true 0.2 1.2 = "not-a-color" ∧
    generateBorderColor "not-a-color" false 0.75 1.85 = "not-a-color" ∧
    generateAccentColor "not-a-color" 0.25 0.05 = "not-a-color" ∧
    generateButtonBorderColor "not-a-color" 0.25 0.05 = "not-a-color" := by
  have hp : parseOklch "not-a-color" = none := by rfl
  obtain ⟨h1, h2, h3, h4⟩ := spec_C2_fallback "not-a-color" hp
  exact ⟨hp, h1 true 0.2 1.2, h2 false 0.75 1.85, h3 0.25 0.05, h4 0.25 0.05⟩

theorem jsParseFloat_digits (ds : List Char) (hne : ds ≠ [])
    (hds : ∀ c ∈ ds, c.isDigit = true) :
    jsParseFloat ds = jsOfRat ((valNat ds : ℚ)) := by
  have ht : takeDigits ds = (ds, []) := by
    have := takeDigits_append ds [] hds (by intro c hc; simp at hc)
    simpa using this
  cases ds with
  | nil => exact absurd rfl hne
  | cons a t =>
    simp only [jsParseFloat, ht]
    rfl

/-- `parseFloat` on a short all-digit capture of known value. -/
theorem jsParseFloat_digits_q (ds : List Char) (x : ℚ) (hne : ds ≠ [])
    (hds : ∀ c ∈ ds, c.isDigit = true) (hv : ((valNat ds : ℕ) : ℚ) = x)
    (h0 : 0 ≤ x) (hx : x ≤ 10 ^ 30) :
    jsParseFloat ds = jq x := by
  rw [jsParseFloat_digits ds hne hds, hv]
  exact jsOfRat_small h0 hx

/-- `parseFloat` on a short `0.digits` capture of known value. -/
theorem jsParseFloat_zero_point_q (ds : List Char) (x : ℚ)
    (hds : ∀ c ∈ ds, c.isDigit = true)
    (hv : ((valNat ds : ℕ) : ℚ) / 10 ^ ds.length = x) (h0 : 0 ≤ x) (hx : x ≤ 10 ^ 30) :
    jsParseFloat ('0' :: '.' :: ds) = jq x := by
  rw [jsParseFloat_zero_point ds hds, hv]
  exact jsOfRat_small h0 hx

theorem parse_oklch_05 :
    parseOklch "oklch(0.5 0.1 200)" = some ⟨jq (1 / 2), jq (1 / 10), jq 200, jq 1⟩ := by
  have hfind : findMatch "oklch(0.5 0.1 200)".data =
      some ⟨['0', '.', '5'], ['0', '.', '1'], ['2', '0', '0'], none⟩ := by rfl
  rw [parseOklch, hfind, Option.map_some']
  have hL : jsParseFloat ['0', '.', '5'] = jq (1 / 2) :=
    jsParseFloat_zero_point_q ['5'] (1 / 2) (by decide)
      (by norm_num [show valNat ['5'] = 5 from by decide]) (by norm_num) (by norm_num)
  have hC : jsParseFloat ['0', '.', '1'] = jq (1 / 10) :=
    jsParseFloat_zero_point_q ['1'] (1 / 10) (by decide)
      (by norm_num [show valNat ['1'] = 1 from by decide]) (by norm_num) (by norm_num)
  have hH : jsParseFloat ['2', '0', '0'] = jq 200 :=
    jsParseFloat_digits_q ['2', '0', '0'] 200 (by simp) (by decide)
      (by norm_num [show valNat ['2', '0', '0'] = 200 from by decide]) (by norm_num)
      (by norm_num)
  simp only [hL, hC, hH, parseL_value]
  norm_num [jq]

/-- C5: on every successfully parsed base color with numeric components,
`generateCardColor` computes lightness `max(0, L - (1 - L + 0.12) *
lightnessBoost * 5)` in the light branch and `min(1, L + L *
lightnessBoost)` in the dark branch, chroma `min(0.37, C *
chromaMultiplier)` in both, passes hue and alpha through unchanged, and
its defaults are `lightnessBoost = 0.2`, `chromaMultiplier = 1.2`. -/
theorem spec_C5_card_formula :
    cardLightnessBoostDefault = 0.2 ∧ cardChromaMultiplierDefault = 1.2 ∧
    ∀ (s : String) (l c h a lb cm : ℚ),
      parseOklch s = some ⟨jq l, jq c, jq h, jq a⟩ →
      generateCardColor s true lb cm =
        formatOklch (jq (max 0 (l - (1 - l + 0.12) * lb * 5))) (jq (min 0.37 (c * cm)))
          (jq h) (jq a) ∧
      generateCardColor s false lb cm =
        formatOklch (jq (min 1 (l + l * lb))) (jq (min 0.37 (c * cm))) (jq h) (jq a) := by
  refine ⟨rfl, rfl, ?_⟩
  intro s l c h a lb cm hp
  constructor
  · unfold generateCardColor
    rw [hp]
    simp [cardNewL, cardNewC, jsMax, jsMin, jsSub, jsAdd, jsMul, jq]
  · unfold generateCardColor
    rw [hp]
    simp [cardNewL, cardNewC, jsMin, jsAdd, jsMul, jq]

/-- C5 (witness): the card formula theorem applied at
`"oklch(0.5 0.1 200)"` in the light branch with the default
coefficients. -/
theorem spec_C5_witness :
    parseOklch "oklch(0.5 0.1 200)" = some ⟨jq (1 / 2), jq (1 / 10), jq 200, jq 1⟩ ∧
    generateCardColor "oklch(0.5 0.1 200)" true 0.2 1.2 =
      formatOklch (jq (max 0 (1 / 2 - (1 - 1 / 2 + 0.12) * 0.2 * 5)))
        (jq (min 0.37 (1 / 10 * 1.2))) (jq 200) (jq 1) := by
  exact ⟨parse_oklch_05, (spec_C5_card_formula.2.2 _ _ _ _ _ 0.2 1.2 parse_oklch_05).1⟩

/-- C6: on every successfully parsed base color with numeric components,
`generateBorderColor` computes lightness `max(0, L - (1 - L + 0.15) *
lightnessBoost * 2)` in the light branch and `min(1, L + L *
lightnessBoost)` in the dark branch, and its defaults are
`lightnessBoost = 0.75`, `chromaMultiplier = 1.85`. -/
theorem spec_C6_border_formula :
    borderLightnessBoostDefault = 0.75 ∧ borderChromaMultiplierDefault = 1.85 ∧
    ∀ (s : String) (l c h a lb cm : ℚ),
      parseOklch s = some ⟨jq l, jq c, jq h, jq a⟩ →
      generateBorderColor s true lb cm =
        formatOklch (jq (max 0 (l - (1 - l + 0.15) * lb * 2))) (jq (min 0.37 (c * cm)))
          (jq h) (jq a) ∧
      generateBorderColor s false lb cm =
        formatOklch (jq (min 1 (l + l * lb))) (jq (min 0.37 (c * cm))) (jq h) (jq a) := by
  refine ⟨rfl, rfl, ?_⟩
  intro s l c h a lb cm hp
  constructor
  · unfold generateBorderColor
    rw [hp]
    simp [borderNewL, borderNewC, jsMax, jsMin, jsSub, jsAdd, jsMul, jq]
  · unfold generateBorderColor
    rw [hp]
    simp [borderNewL, borderNewC, jsMin, jsAdd, jsMul, jq]

/-- C6 (witness): the border formula theorem applied at
`"oklch(0.5 0.1 200)"` in the dark branch with the default
coefficients. -/
theorem spec_C6_witness :
    parseOklch "oklch(0.5 0.1 200)" = some ⟨jq (1 / 2), jq (1 / 10), jq 200, jq 1⟩ ∧
    generateBorderColor "oklch(0.5 0.1 200)" false 0.75 1.85 =
      formatOklch (jq (min 1 (1 / 2 + 1 / 2 * 0.75))) (jq (min 0.37 (1 / 10 * 1.85)))
        (jq 200) (jq 1) := by
  exact ⟨parse_oklch_05, (spec_C6_border_formula.2.2 _ _ _ _ _ 0.75 1.85 parse_oklch_05).2⟩

/-- C8: `generateAccentColor` and `generateButtonBorderColor` return
equal strings on every input and share the same defaults
(`lightnessReduction = 0.25`, `chromaBoost = 0.05`): the two entry
points denote one function. -/
theorem spec_C8_accent_eq_buttonBorder :
    (∀ (s : String) (r b : ℚ), generateAccentColor s r b = generateButtonBorderColor s r b) ∧
    accentLightnessReductionDefault = buttonBorderLightnessReductionDefault ∧
    accentChromaBoostDefault = buttonBorderChromaBoostDefault ∧
    accentLightnessReductionDefault = 0.25 ∧ accentChromaBoostDefault = 0.05 := by
  refine ⟨?_, rfl, rfl, rfl, rfl⟩
  intro s r b
  unfold generateAccentColor generateButtonBorderColor
  unfold accentNewL accentNewC buttonBorderNewL buttonBorderNewC
  rfl

/-- C9: on every successful match, the parsed lightness is the literal
value divided by 100 exactly when it exceeds 1 (otherwise unchanged),
and alpha defaults to 1 when the optional group is absent; in
particular `"oklch(50% 0.1 200)"` and `"oklch(0.5 0.1 200)"` both parse
to `L = 1/2`. -/
theorem spec_C9_parse_normalization :
    (∀ (cs : List Char) (m : RawMatch), findMatch cs = some m →
      (∀ x : ℚ, jsParseFloat m.g1 = jq x →
        ∃ p : Oklch, parseOklch (String.mk cs) = some p ∧
          p.L = jq (if 1 < x then x / 100 else x)) ∧
      (m.g4 = none → ∃ p : Oklch, parseOklch (String.mk cs) = some p ∧ p.A = jq 1)) ∧
    (∃ p : Oklch, parseOklch "oklch(50% 0.1 200)" = some p ∧ p.L = jq (1 / 2)) ∧
    (∃ p : Oklch, parseOklch "oklch(0.5 0.1 200)" = some p ∧ p.L = jq (1 / 2)) := by
  refine ⟨?_, ?_, ?_⟩
  · intro cs m hfind
    have hdata : (String.mk cs).data = cs := rfl
    have hparse : parseOklch (String.mk cs) = some
        { L := if jsGtOne (jsParseFloat m.g1) then jsDiv100 (jsParseFloat m.g1)
               else jsParseFloat m.g1
          C := jsParseFloat m.g2
          H := jsParseFloat m.g3
          A := match m.g4 with | some g => jsParseFloat g | none => jq 1 } := by
      rw [parseOklch, hdata, hfind, Option.map_some']
    constructor
    · intro x hx
      refine ⟨_, hparse, ?_⟩
      show (if jsGtOne (jsParseFloat m.g1) then jsDiv100 (jsParseFloat m.g1)
            else jsParseFloat m.g1) = jq (if 1 < x then x / 100 else x)
      rw [hx, parseL_value]
    · intro hg4
      refine ⟨_, hparse, ?_⟩
      show (match m.g4 with | some g => jsParseFloat g | none => jq 1) = jq 1
      rw [hg4]
  · have hfind : findMatch "oklch(50% 0.1 200)".data =
        some ⟨['5', '0'], ['0', '.', '1'], ['2', '0', '0'], none⟩ := by rfl
    have hx : jsParseFloat ['5', '0'] = jq 50 :=
      jsParseFloat_digits_q ['5', '0'] 50 (by simp) (by decide)
        (by norm_num [show valNat ['5', '0'] = 50 from by decide]) (by norm_num) (by norm_num)
    refine ⟨_, by rw [parseOklch, hfind, Option.map_some'], ?_⟩
    show (if jsGtOne (jsParseFloat ['5', '0']) then jsDiv100 (jsParseFloat ['5', '0'])
          else jsParseFloat ['5', '0']) = jq (1 / 2)
    rw [hx, parseL_value]
    norm_num [jq]
  · exact ⟨_, parse_oklch_05, rfl⟩

/-- C9 (witness): the normalization theorem applied to the match of
`"oklch(50% 0.1 200)"`, whose lightness literal is `50 > 1`. -/
theorem spec_C9_witness :
    ∃ p : Oklch, parseOklch (String.mk "oklch(50% 0.1 200)".data) = some p ∧
      p.L = jq (if 1 < (50 : ℚ) then 50 / 100 else 50) := by
  have hfind : findMatch "oklch(50% 0.1 200)".data =
      some ⟨['5', '0'], ['0', '.', '1'], ['2', '0', '0'], none⟩ := by rfl
  have hx : jsParseFloat ['5', '0'] = jq 50 :=
    jsParseFloat_digits_q ['5', '0'] 50 (by simp) (by decide)
      (by norm_num [show valNat ['5', '0'] = 50 from by decide]) (by norm_num) (by norm_num)
  exact (spec_C9_parse_normalization.1 _ _ hfind).1 50 hx

theorem jsParseFloat_three : jsParseFloat ['3'] = jq 3 :=
  jsParseFloat_digits_q ['3'] 3 (by simp) (by decide)
    (by norm_num [show valNat ['3'] = 3 from by decide]) (by norm_num) (by norm_num)

theorem parse_oklch_dot_chroma :
    parseOklch "oklch(1 . 3)" = some ⟨jq 1, JSVal.nan, jq 3, jq 1⟩ := by
  have hfind : findMatch "oklch(1 . 3)".data =
      some ⟨['1'], ['.'], ['3'], none⟩ := by rfl
  rw [parseOklch, hfind, Option.map_some']
  have hdot : jsParseFloat ['.'] = JSVal.nan := by rfl
  simp only [jsParseFloat_one, hdot, jsParseFloat_three, parseL_value]
  norm_num [jq]

theorem parse_oklch_dot_lightness :
    parseOklch "oklch(. 2 3)" = some ⟨JSVal.nan, jq 2, jq 3, jq 1⟩ := by
  have hfind : findMatch "oklch(. 2 3)".data =
      some ⟨['.'], ['2'], ['3'], none⟩ := by rfl
  rw [parseOklch, hfind, Option.map_some']
  have hdot : jsParseFloat ['.'] = JSVal.nan := by rfl
  have h2 : jsParseFloat ['2'] = jq 2 :=
    jsParseFloat_digits_q ['2'] 2 (by simp) (by decide)
      (by norm_num [show valNat ['2'] = 2 from by decide]) (by norm_num) (by norm_num)
  simp only [hdot, h2, jsParseFloat_three, jsGtOne]
  norm_num [jq]

/-- A pointwise `goodChar` certificate for singleton groups. -/
theorem singleton_good {c : Char} (h1 : numChar c = true) (h2 : wsChar c = false)
    (h3 : c ≠ 'o') : ∀ d ∈ [c], goodChar d := by
  intro d hd
  rw [List.mem_singleton] at hd
  subst hd
  exact ⟨h1, h2, h3⟩

/-- A 310-digit literal, `1` followed by 309 zeros: its value `10 ^ 309`
overflows `parseFloat` to `Infinity`. -/
def overflowDigits : List Char := '1' :: List.replicate 309 '0'

/-- An OKLCH string whose chroma literal overflows `parseFloat`. -/
def hugeChromaStr : String :=
  String.mk ("oklch(1% ".data ++ (overflowDigits ++ (" 3 / 1)").data))

/-- An OKLCH string whose lightness literal overflows `parseFloat`. -/
def hugeLightnessStr : String :=
  String.mk ("oklch(".data ++ (overflowDigits ++ ("% 1 3 / 1)").data))

theorem overflowDigits_natDigits : overflowDigits = natDigits (10 ^ 309) := by
  have h := natDigits_mul_pow 1 309 one_ne_zero
  rw [one_mul] at h
  rw [overflowDigits, h, natDigits_one]
  rfl

theorem overflowDigits_good : ∀ c ∈ overflowDigits, goodChar c := by
  rw [overflowDigits_natDigits]
  exact fun c hc => mem_natDigits_good hc

theorem overflowDigits_ne_nil : overflowDigits ≠ [] := by
  rw [overflowDigits_natDigits]
  exact natDigits_ne_nil _

theorem jsParseFloat_overflowDigits : jsParseFloat overflowDigits = JSVal.posInf := by
  have hdig : ∀ c ∈ overflowDigits, c.isDigit = true := by
    rw [overflowDigits_natDigits]
    exact fun c hc => mem_natDigits_isDigit hc
  rw [jsParseFloat_digits _ overflowDigits_ne_nil hdig, overflowDigits_natDigits,
    valNat_natDigits]
  refine jsOfRat_overflow ?_
  rw [overflowBound]
  push_cast
  norm_num

theorem parse_hugeChroma :
    parseOklch hugeChromaStr = some ⟨jq 1, JSVal.posInf, jq 3, jq 1⟩ := by
  have hdata : hugeChromaStr.data = 'o' :: 'k' :: 'l' :: 'c' :: 'h' :: '(' ::
      (['1'] ++ '%' :: ' ' :: (overflowDigits ++ ' ' ::
        (['3'] ++ ' ' :: '/' :: ' ' :: (['1'] ++ [')'])))) := by
    show "oklch(1% ".data ++ (overflowDigits ++ (" 3 / 1)").data) = _
    rw [show "oklch(1% ".data = ['o', 'k', 'l', 'c', 'h', '(', '1', '%', ' '] from rfl,
      show (" 3 / 1)").data = [' ', '3', ' ', '/', ' ', '1', ')'] from rfl]
    simp
  have hmatch := matchOklchAt_formatted ['1'] overflowDigits ['3'] ['1']
    (by simp) (singleton_good (by decide) (by decide) (by decide))
    overflowDigits_ne_nil overflowDigits_good
    (by simp) (singleton_good (by decide) (by decide) (by decide))
    (by simp) (singleton_good (by decide) (by decide) (by decide))
  rw [parseOklch, hdata, findMatch_cons_some hmatch, Option.map_some']
  dsimp only []
  rw [jsParseFloat_overflowDigits, jsParseFloat_one, jsParseFloat_three]
  rfl

theorem parse_hugeLightness :
    parseOklch hugeLightnessStr = some ⟨JSVal.posInf, jq 1, jq 3, jq 1⟩ := by
  have hdata : hugeLightnessStr.data = 'o' :: 'k' :: 'l' :: 'c' :: 'h' :: '(' ::
      (overflowDigits ++ '%' :: ' ' :: (['1'] ++ ' ' ::
        (['3'] ++ ' ' :: '/' :: ' ' :: (['1'] ++ [')'])))) := by
    show "oklch(".data ++ (overflowDigits ++ ("% 1 3 / 1)").data) = _
    rw [show "oklch(".data = ['o', 'k', 'l', 'c', 'h', '('] from rfl,
      show ("% 1 3 / 1)").data = ['%', ' ', '1', ' ', '3', ' ', '/', ' ', '1', ')'] from rfl]
    simp
  have hmatch := matchOklchAt_formatted overflowDigits ['1'] ['3'] ['1']
    overflowDigits_ne_nil overflowDigits_good
    (by simp) (singleton_good (by decide) (by decide) (by decide))
    (by simp) (singleton_good (by decide) (by decide) (by decide))
    (by simp) (singleton_good (by decide) (by decide) (by decide))
  rw [parseOklch, hdata, findMatch_cons_some hmatch, Option.map_some']
  dsimp only []
  rw [jsParseFloat_overflowDigits, jsParseFloat_one, jsParseFloat_three]
  rfl

/-- C3: false as stated, in two distinct ways.  `"oklch(1 . 3)"`
matches the pattern (so the parse succeeds, returning a record rather
than the null sentinel), but its chroma literal `"."` parses to `NaN`
and `min(0.37, NaN * cm)` is `NaN`.  Independently, a 310-digit chroma
literal parses to `Infinity` (a number, not `NaN`), and with
`chromaMultiplier = 0` the code computes `min(0.37, Infinity * 0) =
NaN`.  In both cases the chroma passed to the formatter is `NaN`, which
does not compare `<= 0.37`. -/
theorem spec_C3_counterexample :
    (parseOklch "oklch(1 . 3)" = some ⟨jq 1, JSVal.nan, jq 3, jq 1⟩ ∧
     generateCardColor "oklch(1 . 3)" true 0.2 1.2 =
       formatOklch (cardNewL (jq 1) true 0.2) (cardNewC JSVal.nan 1.2) (jq 3) (jq 1) ∧
     cardNewC JSVal.nan 1.2 = JSVal.nan) ∧
    (parseOklch hugeChromaStr = some ⟨jq 1, JSVal.posInf, jq 3, jq 1⟩ ∧
     generateCardColor hugeChromaStr true 0.2 0 =
       formatOklch (cardNewL (jq 1) true 0.2) (cardNewC JSVal.posInf 0) (jq 3) (jq 1) ∧
     cardNewC JSVal.posInf 0 = JSVal.nan) ∧
    jsLe (cardNewC JSVal.nan 1.2) (jq 0.37) = false ∧
    jsLe (cardNewC JSVal.posInf 0) (jq 0.37) = false := by
  have hnan1 : cardNewC JSVal.nan 1.2 = JSVal.nan := by
    norm_num [cardNewC, jsMin, jsMul, jq]
  have hnan2 : cardNewC JSVal.posInf 0 = JSVal.nan := by
    norm_num [cardNewC, jsMin, jsMul, jq]
  refine ⟨⟨parse_oklch_dot_chroma, ?_, hnan1⟩, ⟨parse_hugeChroma, ?_, hnan2⟩, ?_, ?_⟩
  · unfold generateCardColor
    rw [parse_oklch_dot_chroma]
  · unfold generateCardColor
    rw [parse_hugeChroma]
  · rw [hnan1]
    rfl
  · rw [hnan2]
    rfl

/-- C3 (amended): on every successfully parsed input whose chroma
component is a finite number, the chroma computed by each of the four
derivation functions (the value passed to the formatter, as witnessed
by the wiring equations) is never `NaN` and compares `<= 0.37` in
JavaScript's ordering, for every choice of flag and coefficients. -/
theorem spec_C3_chroma_clamp (s : String) (p : Oklch) (hp : parseOklch s = some p)
    (c : ℚ) (hc : p.C = jq c) :
    (∀ cm : ℚ, cardNewC p.C cm ≠ JSVal.nan ∧ jsLe (cardNewC p.C cm) (jq 0.37) = true) ∧
    (∀ cm : ℚ, borderNewC p.C cm ≠ JSVal.nan ∧ jsLe (borderNewC p.C cm) (jq 0.37) = true) ∧
    (∀ b : ℚ, accentNewC p.C b ≠ JSVal.nan ∧ jsLe (accentNewC p.C b) (jq 0.37) = true) ∧
    (∀ b : ℚ,
      buttonBorderNewC p.C b ≠ JSVal.nan ∧ jsLe (buttonBorderNewC p.C b) (jq 0.37) = true) ∧
    (∀ (il : Bool) (lb cm : ℚ), generateCardColor s il lb cm =
      formatOklch (cardNewL p.L il lb) (cardNewC p.C cm) p.H p.A) ∧
    (∀ (il : Bool) (lb cm : ℚ), generateBorderColor s il lb cm =
      formatOklch (borderNewL p.L il lb) (borderNewC p.C cm) p.H p.A) ∧
    (∀ r b : ℚ, generateAccentColor s r b =
      formatOklch (accentNewL p.L r) (accentNewC p.C b) p.H p.A) ∧
    (∀ r b : ℚ, generateButtonBorderColor s r b =
      formatOklch (buttonBorderNewL p.L r) (buttonBorderNewC p.C b) p.H p.A) := by
  have hmulC : ∀ cm : ℚ, jsMin (jq 0.37) (jsMul (jq c) (jq cm)) =
      jq (min 0.37 (c * cm)) := by
    intro cm
    simp [jsMin, jsMul, jq]
  have haddC : ∀ b : ℚ, jsMin (jq 0.37) (jsAdd (jq c) (jq b)) = jq (min 0.37 (c + b)) := by
    intro b
    simp [jsMin, jsAdd, jq]
  refine ⟨?_, ?_, ?_, ?_, ?_, ?_, ?_, ?_⟩
  · intro cm
    rw [hc, show cardNewC (jq c) cm = jq (min 0.37 (c * cm)) from hmulC cm]
    exact ⟨by simp [jq], by simp [jsLe, jq, min_le_left]⟩
  · intro cm
    rw [hc, show borderNewC (jq c) cm = jq (min 0.37 (c * cm)) from hmulC cm]
    exact ⟨by simp [jq], by simp [jsLe, jq, min_le_left]⟩
  · intro b
    rw [hc, show accentNewC (jq c) b = jq (min 0.37 (c + b)) from haddC b]
    exact ⟨by simp [jq], by simp [jsLe, jq, min_le_left]⟩
  · intro b
    rw [hc, show buttonBorderNewC (jq c) b = jq (min 0.37 (c + b)) from haddC b]
    exact ⟨by simp [jq], by simp [jsLe, jq, min_le_left]⟩
  · intro il lb cm
    unfold generateCardColor
    rw [hp]
  · intro il lb cm
    unfold generateBorderColor
    rw [hp]
  · intro r b
    unfold generateAccentColor
    rw [hp]
  · intro r b
    unfold generateButtonBorderColor
    rw [hp]

/-- C3 (witness): the clamp theorem applied at `"oklch(0.5 0.1 200)"`
(chroma `1/10`) with the default card multiplier. -/
theorem spec_C3_witness :
    cardNewC (jq (1 / 10)) 1.2 ≠ JSVal.nan ∧
    jsLe (cardNewC (jq (1 / 10)) 1.2) (jq 0.37) = true :=
  (spec_C3_chroma_clamp _ _ parse_oklch_05 (1 / 10) rfl).1 1.2

/-- C4: false as stated, in two distinct ways.  `"oklch(. 2 3)"`
matches the pattern (the parse succeeds), but its lightness literal
`"."` parses to `NaN` and `max(0.05, NaN - r * NaN)` is `NaN`.
Independently, a 310-digit lightness literal parses to `Infinity` (a
number, not `NaN`), and with the default `lightnessReduction = 0.25`
the code computes `max(0.05, Infinity - 0.25 * Infinity) = NaN`.  In
both cases the lightness passed to the formatter is `NaN`, which does
not compare `>= 0.05`. -/
theorem spec_C4_counterexample :
    (parseOklch "oklch(. 2 3)" = some ⟨JSVal.nan, jq 2, jq 3, jq 1⟩ ∧
     generateAccentColor "oklch(. 2 3)" 0.25 0.05 =
       formatOklch (accentNewL JSVal.nan 0.25) (accentNewC (jq 2) 0.05) (jq 3) (jq 1) ∧
     accentNewL JSVal.nan 0.25 = JSVal.nan) ∧
    (parseOklch hugeLightnessStr = some ⟨JSVal.posInf, jq 1, jq 3, jq 1⟩ ∧
     generateAccentColor hugeLightnessStr 0.25 0.05 =
       formatOklch (accentNewL JSVal.posInf 0.25) (accentNewC (jq 1) 0.05) (jq 3) (jq 1) ∧
     accentNewL JSVal.posInf 0.25 = JSVal.nan) ∧
    jsLe (jq 0.05) (accentNewL JSVal.nan 0.25) = false ∧
    jsLe (jq 0.05) (accentNewL JSVal.posInf 0.25) = false := by
  have hnan1 : accentNewL JSVal.nan 0.25 = JSVal.nan := by
    norm_num [accentNewL, jsMax, jsSub, jsMul, jq]
  have hnan2 : accentNewL JSVal.posInf 0.25 = JSVal.nan := by
    norm_num [accentNewL, jsMax, jsSub, jsMul, jq]
  refine ⟨⟨parse_oklch_dot_lightness, ?_, hnan1⟩, ⟨parse_hugeLightness, ?_, hnan2⟩, ?_, ?_⟩
  · unfold generateAccentColor
    rw [parse_oklch_dot_lightness]
  · unfold generateAccentColor
    rw [parse_hugeLightness]
  · rw [hnan1]
    rfl
  · rw [hnan2]
    rfl

/-- C4 (amended): on every successfully parsed input whose lightness
component is a finite number, the lightness computed by
`generateAccentColor` and by `generateButtonBorderColor` (the value
passed to the formatter, as witnessed by the wiring equations) is never
`NaN` and compares `>= 0.05` in JavaScript's ordering, for every
`lightnessReduction` and `chromaBoost`. -/
theorem spec_C4_lightness_floor (s : String) (p : Oklch) (hp : parseOklch s = some p)
    (l : ℚ) (hl : p.L = jq l) :
    (∀ r : ℚ, accentNewL p.L r ≠ JSVal.nan ∧ jsLe (jq 0.05) (accentNewL p.L r) = true) ∧
    (∀ r : ℚ,
      buttonBorderNewL p.L r ≠ JSVal.nan ∧ jsLe (jq 0.05) (buttonBorderNewL p.L r) = true) ∧
    (∀ r b : ℚ, generateAccentColor s r b =
      formatOklch (accentNewL p.L r) (accentNewC p.C b) p.H p.A) ∧
    (∀ r b : ℚ, generateButtonBorderColor s r b =
      formatOklch (buttonBorderNewL p.L r) (buttonBorderNewC p.C b) p.H p.A) := by
  have hmaxL : ∀ r : ℚ, jsMax (jq 0.05) (jsSub (jq l) (jsMul (jq r) (jq l))) =
      jq (max 0.05 (l - r * l)) := by
    intro r
    simp [jsMax, jsSub, jsMul, jq]
  refine ⟨?_, ?_, ?_, ?_⟩
  · intro r
    rw [hl, show accentNewL (jq l) r = jq (max 0.05 (l - r * l)) from hmaxL r]
    exact ⟨by simp [jq], by simp [jsLe, jq, le_max_left]⟩
  · intro r
    rw [hl, show buttonBorderNewL (jq l) r = jq (max 0.05 (l - r * l)) from hmaxL r]
    exact ⟨by simp [jq], by simp [jsLe, jq, le_max_left]⟩
  · intro r b
    unfold generateAccentColor
    rw [hp]
  · intro r b
    unfold generateButtonBorderColor
    rw [hp]

/-- C4 (witness): the floor theorem applied at `"oklch(0.5 0.1 200)"`
(lightness `1/2`) with the default reduction. -/
theorem spec_C4_witness :
    accentNewL (jq (1 / 2)) 0.25 ≠ JSVal.nan ∧
    jsLe (jq 0.05) (accentNewL (jq (1 / 2)) 0.25) = true :=
  (spec_C4_lightness_floor _ _ parse_oklch_05 (1 / 2) rfl).1 0.25

/-- The characters after the first `.` of a rendered number (its
fractional digits). -/
def fracPart (cs : List Char) : List Char := (cs.dropWhile (fun c => c != '.')).drop 1

theorem dropWhile_ne_dot_append (l1 l2 : List Char) (h : ∀ c ∈ l1, (c != '.') = true) :
    (l1 ++ l2).dropWhile (fun c => c != '.') = l2.dropWhile (fun c => c != '.') := by
  induction l1 with
  | nil => simp
  | cons a t ih =>
    rw [List.cons_append, List.dropWhile_cons, if_pos (h a (List.mem_cons_self a t))]
    exact ih (fun c hc => h c (List.mem_cons_of_mem _ hc))

theorem fracPart_fixedNonneg (f : ℕ) (q : ℚ) (hf : 0 < f) :
    fracPart (fixedNonneg f q) = padDigits f ((⌊q * 10 ^ f + 1 / 2⌋).toNat % 10 ^ f) := by
  rw [fixedNonneg_eq _ _ (by omega)]
  unfold fracPart
  rw [dropWhile_ne_dot_append]
  · rw [List.dropWhile_cons, if_neg (by decide)]
    rfl
  · intro c hc
    obtain ⟨d, hd, rfl⟩ := mem_natDigits_digit _ c hc
    interval_cases d <;> decide

theorem fracPart_len (f : ℕ) (q : ℚ) (hf : 0 < f) :
    (fracPart (fixedNonneg f q)).length = f := by
  rw [fracPart_fixedNonneg f q hf]
  exact padDigits_length hf (Nat.mod_lt _ (by positivity))

theorem fracPart_cons_minus (l : List Char) : fracPart ('-' :: l) = fracPart l := by
  unfold fracPart
  rw [List.dropWhile_cons, if_pos (by decide)]

theorem fracPart_len_abs (f : ℕ) (q : ℚ) (hf : 0 < f) (hq : |q| < 10 ^ 21) :
    (fracPart (jsToFixedChars f q)).length = f := by
  rw [jsToFixedChars, if_neg (by linarith)]
  by_cases hneg : q < 0
  · rw [if_pos hneg, fracPart_cons_minus]
    exact fracPart_len f (-q) hf
  · rw [if_neg hneg]
    exact fracPart_len f q hf

theorem natDigits_21 : natDigits 21 = ['2', '1'] := by
  simp [natDigits]
  decide

theorem jsRatToChars_1e21 : jsRatToChars ((10 : ℚ) ^ 21) = ['1', 'e', '+', '2', '1'] := by
  rw [jsRatToChars, if_neg (by norm_num)]
  have hm : (⌊(10 : ℚ) ^ 21 * 10 ^ 20⌋).toNat = 10 ^ 41 := by
    rw [show ((10 : ℚ) ^ 21 * 10 ^ 20) = ((10 ^ 41 : ℕ) : ℚ) from by push_cast; ring]
    rw [Int.floor_natCast]
    rfl
  simp only [jsPosChars, hm]
  have hstrip : stripZeros (10 ^ 41) = 1 := by
    have h := stripZeros_mul_pow 41 1 one_ne_zero
    rw [one_mul] at h
    rw [h, stripZeros_one]
  have hnd : natDigits (10 ^ 41) = '1' :: List.replicate 41 '0' := by
    have h := natDigits_mul_pow 1 41 one_ne_zero
    rw [one_mul] at h
    rw [h, natDigits_one]
    rfl
  rw [if_neg (by positivity), hstrip, natDigits_one, hnd]
  norm_num [natDigits_21]

theorem jsToFixedChars_1e21 (f : ℕ) :
    jsToFixedChars f ((10 : ℚ) ^ 21) = ['1', 'e', '+', '2', '1'] := by
  rw [jsToFixedChars, if_pos (le_abs_self _), jsRatToChars_1e21]

theorem formatOklch_golden :
    formatOklch (jq 0.7461) (jq 0.1715) (jq 51.56) (jq 1) =
      "oklch(74.61% 0.1715 51.56 / 1)" := by
  have h1 : jsToFixedChars 2 ((0.7461 : ℚ) * 100) = ['7', '4', '.', '6', '1'] := by
    rw [jsToFixedChars_nonneg _ _ (by norm_num) (by norm_num)]
    rw [fixedNonneg_eq _ _ (by norm_num)]
    rw [show (⌊(0.7461 : ℚ) * 100 * 10 ^ 2 + 1 / 2⌋ : ℤ) = 7461 from by norm_num]
    rw [show ((7461 : ℤ).toNat : ℕ) = 7461 from rfl]
    simp [natDigits, padDigits]
    decide
  have h2 : jsToFixedChars 4 (0.1715 : ℚ) = ['0', '.', '1', '7', '1', '5'] := by
    rw [jsToFixedChars_nonneg _ _ (by norm_num) (by norm_num)]
    rw [fixedNonneg_eq _ _ (by norm_num)]
    rw [show (⌊(0.1715 : ℚ) * 10 ^ 4 + 1 / 2⌋ : ℤ) = 1715 from by norm_num]
    rw [show ((1715 : ℤ).toNat : ℕ) = 1715 from rfl]
    simp [natDigits, padDigits]
    decide
  have h3 : jsToFixedChars 2 (51.56 : ℚ) = ['5', '1', '.', '5', '6'] := by
    rw [jsToFixedChars_nonneg _ _ (by norm_num) (by norm_num)]
    rw [fixedNonneg_eq _ _ (by norm_num)]
    rw [show (⌊(51.56 : ℚ) * 10 ^ 2 + 1 / 2⌋ : ℤ) = 5156 from by norm_num]
    rw [show ((5156 : ℤ).toNat : ℕ) = 5156 from rfl]
    simp [natDigits, padDigits]
    decide
  have hM : jsMul (jq 0.7461) (jq 100) = jq ((0.7461 : ℚ) * 100) := rfl
  unfold formatOklch
  rw [hM]
  rw [show jsToFixedStr 2 (jq ((0.7461 : ℚ) * 100)) =
      String.mk (jsToFixedChars 2 ((0.7461 : ℚ) * 100)) from rfl, h1]
  rw [show jsToFixedStr 4 (jq (0.1715 : ℚ)) =
      String.mk (jsToFixedChars 4 (0.1715 : ℚ)) from rfl, h2]
  rw [show jsToFixedStr 2 (jq (51.56 : ℚ)) =
      String.mk (jsToFixedChars 2 (51.56 : ℚ)) from rfl, h3]
  rw [show jsNumToStr (jq 1) = String.mk (jsRatToChars 1) from rfl, jsRatToChars_one]
  rfl

/-- C7: false as stated.  `toFixed` escapes to plain number-to-string
conversion at magnitudes of `10 ^ 21` and above: the hue `10 ^ 21`
renders as `"1e+21"`, which has no fractional digits at all (and a
`NaN` component renders as `"NaN"`), so the formatter does not produce
exactly 2 decimal places for every hue. -/
theorem spec_C7_counterexample :
    jsToFixedChars 2 ((10 : ℚ) ^ 21) = ['1', 'e', '+', '2', '1'] ∧
    (fracPart (jsToFixedChars 2 ((10 : ℚ) ^ 21))).length = 0 ∧
    formatOklch (jq 0) (jq 0) (jq ((10 : ℚ) ^ 21)) (jq 1) =
      "oklch(0.00% 0.0000 1e+21 / 1)" ∧
    jsToFixedStr 2 JSVal.nan = "NaN" := by
  refine ⟨jsToFixedChars_1e21 2, ?_, ?_, rfl⟩
  · rw [jsToFixedChars_1e21 2]
    rfl
  · have h1 : jsToFixedChars 2 ((0 : ℚ) * 100) = ['0', '.', '0', '0'] := by
      rw [jsToFixedChars_nonneg _ _ (by norm_num) (by norm_num)]
      rw [fixedNonneg_eq _ _ (by norm_num)]
      rw [show (⌊(0 : ℚ) * 100 * 10 ^ 2 + 1 / 2⌋ : ℤ) = 0 from by norm_num]
      rw [show ((0 : ℤ).toNat : ℕ) = 0 from rfl]
      simp [natDigits, padDigits]
      decide
    have h2 : jsToFixedChars 4 (0 : ℚ) = ['0', '.', '0', '0', '0', '0'] := by
      rw [jsToFixedChars_nonneg _ _ (by norm_num) (by norm_num)]
      rw [fixedNonneg_eq _ _ (by norm_num)]
      rw [show (⌊(0 : ℚ) * 10 ^ 4 + 1 / 2⌋ : ℤ) = 0 from by norm_num]
      rw [show ((0 : ℤ).toNat : ℕ) = 0 from rfl]
      simp [natDigits, padDigits]
      decide
    have hM : jsMul (jq 0) (jq 100) = jq ((0 : ℚ) * 100) := rfl
    unfold formatOklch
    rw [hM]
    rw [show jsToFixedStr 2 (jq ((0 : ℚ) * 100)) =
        String.mk (jsToFixedChars 2 ((0 : ℚ) * 100)) from rfl, h1]
    rw [show jsToFixedStr 4 (jq (0 : ℚ)) =
        String.mk (jsToFixedChars 4 (0 : ℚ)) from rfl, h2]
    rw [show jsToFixedStr 2 (jq ((10 : ℚ) ^ 21)) =
        String.mk (jsToFixedChars 2 ((10 : ℚ) ^ 21)) from rfl, jsToFixedChars_1e21 2]
    rw [show jsNumToStr (jq 1) = String.mk (jsRatToChars 1) from rfl, jsRatToChars_one]
    rfl

/-- C7 (amended): `formatOklch(0.7461, 0.1715, 51.56, 1)` is exactly
`"oklch(74.61% 0.1715 51.56 / 1)"`; the formatter is the concatenation
rendering lightness as `toFixed 2` of `L*100` followed by `%`, chroma
as `toFixed 4`, hue as `toFixed 2`, and alpha interpolated as given;
and for every finite number of magnitude below `10 ^ 21` (positive,
zero, or negative) the `toFixed 2`/`toFixed 4` renderings carry exactly
2 and 4 fractional digits. -/
theorem spec_C7_format :
    formatOklch (jq 0.7461) (jq 0.1715) (jq 51.56) (jq 1) =
      "oklch(74.61% 0.1715 51.56 / 1)" ∧
    (∀ L C H A : JSNum, formatOklch L C H A =
      "oklch(" ++ jsToFixedStr 2 (jsMul L (jq 100)) ++ "% " ++ jsToFixedStr 4 C ++ " "
        ++ jsToFixedStr 2 H ++ " / " ++ jsNumToStr A ++ ")") ∧
    (∀ q : ℚ, |q| < 10 ^ 21 →
      (fracPart (jsToFixedChars 2 q)).length = 2 ∧
      (fracPart (jsToFixedChars 4 q)).length = 4) := by
  refine ⟨formatOklch_golden, fun L C H A => rfl, ?_⟩
  intro q hq
  exact ⟨fracPart_len_abs 2 q (by norm_num) hq, fracPart_len_abs 4 q (by norm_num) hq⟩

/-- C7 (witness): the amended theorem's digit-count clause applied at
the negative value `-51.56` (within the `toFixed` range). -/
theorem spec_C7_witness :
    (fracPart (jsToFixedChars 2 (-(51.56 : ℚ)))).length = 2 ∧
    (fracPart (jsToFixedChars 4 (-(51.56 : ℚ)))).length = 4 :=
  spec_C7_format.2.2 (-(51.56 : ℚ)) (by rw [abs_lt]; constructor <;> norm_num)

/-! ### Captured groups contain only digit and dot characters -/

theorem takeNum1_chars {cs : List Char} {p : List Char × List Char}
    (h : takeNum1 cs = some p) : ∀ c ∈ p.1, numChar c = true := by
  unfold takeNum1 at h
  dsimp only [] at h
  split at h
  · simp at h
  · obtain rfl : takeNum cs = p := Option.some.inj h
    exact takeNum_fst_numChar cs

theorem alphaPart_chars {cs : List Char} {p : Option (List Char) × List Char}
    (h : alphaPart cs = some p) : ∀ g, p.1 = some g → ∀ c ∈ g, numChar c = true := by
  intro g hg c hc
  unfold alphaPart at h
  split at h
  · next r =>
    cases ht : takeNum1 (dropWs r) with
    | none =>
      rw [ht] at h
      simp at h
    | some q =>
      rw [ht, Option.map_some'] at h
      obtain rfl : (some q.1, q.2) = p := Option.some.inj h
      obtain rfl : q.1 = g := Option.some.inj hg
      exact takeNum1_chars ht _ hc
  · obtain rfl : (none, cs) = p := Option.some.inj h
    simp at hg

theorem matchOklchAt_groups {cs : List Char} {m : RawMatch}
    (h : matchOklchAt cs = some m) :
    (∀ c ∈ m.g1, numChar c = true) ∧ (∀ c ∈ m.g2, numChar c = true) ∧
    (∀ c ∈ m.g3, numChar c = true) ∧
    (∀ g, m.g4 = some g → ∀ c ∈ g, numChar c = true) := by
  unfold matchOklchAt at h
  cases h0 : stripLit litOklch cs with
  | none => rw [h0] at h; simp at h
  | some r0 =>
  rw [h0, Option.some_bind] at h
  cases h1 : takeNum1 (dropWs r0) with
  | none => rw [h1] at h; simp at h
  | some p1 =>
  rw [h1, Option.some_bind] at h
  cases h2 : ws1 (stripPct p1.2) with
  | none => rw [h2] at h; simp at h
  | some r2 =>
  rw [h2, Option.some_bind] at h
  cases h3 : takeNum1 r2 with
  | none => rw [h3] at h; simp at h
  | some p2 =>
  rw [h3, Option.some_bind] at h
  cases h4 : ws1 p2.2 with
  | none => rw [h4] at h; simp at h
  | some r4 =>
  rw [h4, Option.some_bind] at h
  cases h5 : takeNum1 r4 with
  | none => rw [h5] at h; simp at h
  | some p3 =>
  rw [h5, Option.some_bind] at h
  cases h6 : alphaPart (dropWs p3.2) with
  | none => rw [h6] at h; simp at h
  | some p4 =>
  rw [h6, Option.some_bind] at h
  cases h7 : closeParen (dropWs p4.2) with
  | none => rw [h7] at h; simp at h
  | some r6 =>
  rw [h7, Option.some_bind] at h
  obtain rfl : (⟨p1.1, p2.1, p3.1, p4.1⟩ : RawMatch) = m := Option.some.inj h
  exact ⟨takeNum1_chars h1, takeNum1_chars h3, takeNum1_chars h5, alphaPart_chars h6⟩

theorem findMatch_groups : ∀ (cs : List Char) (m : RawMatch), findMatch cs = some m →
    (∀ c ∈ m.g1, numChar c = true) ∧ (∀ c ∈ m.g2, numChar c = true) ∧
    (∀ c ∈ m.g3, numChar c = true) ∧
    (∀ g, m.g4 = some g → ∀ c ∈ g, numChar c = true) := by
  intro cs
  induction cs with
  | nil =>
    intro m h
    simp [findMatch] at h
  | cons c cs ih =>
    intro m h
    rw [findMatch] at h
    cases hA : matchOklchAt (c :: cs) with
    | some m2 =>
      rw [hA] at h
      obtain rfl : m2 = m := Option.some.inj h
      exact matchOklchAt_groups hA
    | none =>
      rw [hA] at h
      exact ih m h

/-! ### Strings without the letter `o` -/

def noO (l : List Char) : Prop := ∀ c ∈ l, c ≠ 'o'

theorem noO_nil : noO [] := by
  intro c hc
  simp at hc

theorem noO_cons {c : Char} {l : List Char} (h1 : c ≠ 'o') (h2 : noO l) : noO (c :: l) := by
  intro d hd
  rcases List.mem_cons.1 hd with rfl | hd
  · exact h1
  · exact h2 d hd

theorem noO_append {a b : List Char} (h1 : noO a) (h2 : noO b) : noO (a ++ b) := by
  intro d hd
  rcases List.mem_append.1 hd with hd | hd
  · exact h1 d hd
  · exact h2 d hd

/-- C10: the pattern's numeric character class `[\d.]` admits only
digits and dots, so no captured component ever contains a minus sign;
consequently every formatted OKLCH string carrying a negative hue fails
to parse, and every derivation function returns such a string
unchanged. -/
theorem spec_C10_minus_rejected :
    (∀ (cs : List Char) (m : RawMatch), findMatch cs = some m →
      '-' ∉ m.g1 ∧ '-' ∉ m.g2 ∧ '-' ∉ m.g3 ∧ ∀ g, m.g4 = some g → '-' ∉ g) ∧
    (∀ L C H A : ℚ, 0 ≤ L → L < 10 ^ 19 → 0 ≤ C → C < 10 ^ 21 → H < 0 → 0 ≤ A →
      parseOklch (formatOklch (jq L) (jq C) (jq H) (jq A)) = none ∧
      (∀ (il : Bool) (lb cm : ℚ),
        generateCardColor (formatOklch (jq L) (jq C) (jq H) (jq A)) il lb cm =
          formatOklch (jq L) (jq C) (jq H) (jq A) ∧
        generateBorderColor (formatOklch (jq L) (jq C) (jq H) (jq A)) il lb cm =
          formatOklch (jq L) (jq C) (jq H) (jq A)) ∧
      (∀ r b : ℚ,
        generateAccentColor (formatOklch (jq L) (jq C) (jq H) (jq A)) r b =
          formatOklch (jq L) (jq C) (jq H) (jq A) ∧
        generateButtonBorderColor (formatOklch (jq L) (jq C) (jq H) (jq A)) r b =
          formatOklch (jq L) (jq C) (jq H) (jq A))) := by
  constructor
  · intro cs m hfind
    obtain ⟨hg1, hg2, hg3, hg4⟩ := findMatch_groups cs m hfind
    exact ⟨fun hm => absurd (hg1 '-' hm) (by decide),
      fun hm => absurd (hg2 '-' hm) (by decide),
      fun hm => absurd (hg3 '-' hm) (by decide),
      fun g hg hm => absurd (hg4 g hg '-' hm) (by decide)⟩
  · intro L C H A hL0 hL1 hC0 hC1 hH hA0
    obtain ⟨tl, htl, htlo⟩ := jsToFixedChars_neg 2 H hH
    have hg1 : jsToFixedChars 2 (L * 100) = fixedNonneg 2 (L * 100) :=
      jsToFixedChars_nonneg _ _ (by linarith) (by nlinarith)
    have hg2 : jsToFixedChars 4 C = fixedNonneg 4 C := jsToFixedChars_nonneg _ _ hC0 hC1
    have hdata := formatOklch_data L C H A
    rw [hg1, hg2, htl, List.cons_append] at hdata
    have hfail := matchOklchAt_neg_hue (fixedNonneg 2 (L * 100)) (fixedNonneg 4 C)
      (tl ++ ' ' :: '/' :: ' ' :: (jsRatToChars A ++ [')']))
      (fixedNonneg_ne_nil _ _ (by norm_num)) (fun c hc => mem_fixedNonneg_good (by norm_num) hc)
      (fixedNonneg_ne_nil _ _ (by norm_num)) (fun c hc => mem_fixedNonneg_good (by norm_num) hc)
    have hG1o : noO (fixedNonneg 2 (L * 100)) := fun c hc => mem_fixedNonneg_ne_o hc
    have hG2o : noO (fixedNonneg 4 C) := fun c hc => mem_fixedNonneg_ne_o hc
    have hG4o : noO (jsRatToChars A) := fun c hc => mem_jsRatToChars_ne_o A c hc
    have t5 : noO (jsRatToChars A ++ [')']) :=
      noO_append hG4o (noO_cons (by decide) noO_nil)
    have t4 : noO (' ' :: '/' :: ' ' :: (jsRatToChars A ++ [')'])) :=
      noO_cons (by decide) (noO_cons (by decide) (noO_cons (by decide) t5))
    have t3 : noO (tl ++ ' ' :: '/' :: ' ' :: (jsRatToChars A ++ [')'])) :=
      noO_append htlo t4
    have t2 : noO (' ' :: '-' :: (tl ++ ' ' :: '/' :: ' ' :: (jsRatToChars A ++ [')']))) :=
      noO_cons (by decide) (noO_cons (by decide) t3)
    have t1 : noO (fixedNonneg 4 C ++ ' ' :: '-' ::
        (tl ++ ' ' :: '/' :: ' ' :: (jsRatToChars A ++ [')']))) :=
      noO_append hG2o t2
    have t0 : noO ('%' :: ' ' :: (fixedNonneg 4 C ++ ' ' :: '-' ::
        (tl ++ ' ' :: '/' :: ' ' :: (jsRatToChars A ++ [')'])))) :=
      noO_cons (by decide) (noO_cons (by decide) t1)
    have tG : noO (fixedNonneg 2 (L * 100) ++ '%' :: ' ' :: (fixedNonneg 4 C ++ ' ' :: '-' ::
        (tl ++ ' ' :: '/' :: ' ' :: (jsRatToChars A ++ [')'])))) :=
      noO_append hG1o t0
    have htail : noO ('k' :: 'l' :: 'c' :: 'h' :: '(' ::
        (fixedNonneg 2 (L * 100) ++ '%' :: ' ' :: (fixedNonneg 4 C ++ ' ' :: '-' ::
          (tl ++ ' ' :: '/' :: ' ' :: (jsRatToChars A ++ [')']))))) :=
      noO_cons (by decide) (noO_cons (by decide) (noO_cons (by decide) (noO_cons (by decide)
        (noO_cons (by decide) tG))))
    have hfm : findMatch ('o' :: 'k' :: 'l' :: 'c' :: 'h' :: '(' ::
        (fixedNonneg 2 (L * 100) ++ '%' :: ' ' :: (fixedNonneg 4 C ++ ' ' :: '-' ::
          (tl ++ ' ' :: '/' :: ' ' :: (jsRatToChars A ++ [')']))))) = none :=
      findMatch_cons_none hfail (findMatch_none_of_no_o _ htail)
    have hparse : parseOklch (formatOklch (jq L) (jq C) (jq H) (jq A)) = none := by
      rw [parseOklch, hdata, hfm]
      rfl
    obtain ⟨d1, d2, d3, d4⟩ := derivations_id_of_parse_none _ hparse
    exact ⟨hparse, fun il lb cm => ⟨d1 il lb cm, d2 il lb cm⟩, fun r b => ⟨d3 r b, d4 r b⟩⟩

/-- C10 (witness): the negative-hue theorem applied at
`L = 1/2`, `C = 1/10`, `H = -1`, `A = 1`. -/
theorem spec_C10_witness :
    parseOklch (formatOklch (jq (1 / 2)) (jq (1 / 10)) (jq (-1)) (jq 1)) = none ∧
    generateCardColor (formatOklch (jq (1 / 2)) (jq (1 / 10)) (jq (-1)) (jq 1)) true 0.2 1.2 =
      formatOklch (jq (1 / 2)) (jq (1 / 10)) (jq (-1)) (jq 1) := by
  have h := spec_C10_minus_rejected.2 (1 / 2) (1 / 10) (-1) 1 (by norm_num) (by norm_num)
    (by norm_num) (by norm_num) (by norm_num) (by norm_num)
  exact ⟨h.1, (h.2.1 true 0.2 1.2).1⟩
